import Mathlib

/-!
# Sentinal backend: shallow embedding of the content pipeline

This file embeds, in Lean 4, the core content-acquisition / ranking /
normalization pipeline of the Sentinal backend
(`backend/app/services_common.py`, `services_fetch.py`, `services_analysis.py`,
`services_breakdown.py`) and proves or refutes the frozen claims about it.

Embedding conventions:

* Python strings are `String`; Python string slices/`len` work on characters,
  matching Lean `String` operations.
* Unix timestamps (`created_utc`, `time.time()`) are integral in every input
  the mirror returns; they are modelled as `Int` (only order comparisons are
  performed on them).
* The ranking / engagement weights (`_calculate_post_rank`,
  `_post_engagement_weight`) are IEEE-754 float computations built from
  `math.log`.  Their numeric values are not reproducible in an exact shallow
  embedding, so every function that consumes such a weight takes the weight
  function as an explicit parameter (`rank : Post → ℚ`, `engWeight : Post → ℚ`)
  and the theorems below are proved for *every* choice of weight function;
  the sort combinator itself is part of the embedding.  Python's `sorted`
  is a stable sort, and for a total transitive "may come first" relation all
  stable sorts compute the same list, so it is embedded as
  `List.insertionSort` (which is stable: `orderedInsert` places an earlier
  element before a tied later one) with the descending key relation.
* Python in-memory caches (plain dicts) are explicit association lists passed
  in and returned; dict assignment overwrites in place, which the
  association-list `acSet`/`cacheSet` operations mirror.
* Network and LLM calls are oracle parameters: a call outcome
  (`Except String …`) is an input of the embedded function.  A raised Python
  exception is an `Except.error` result.
-/

/-! ## String primitives -/

/-- Python `str.lower()` (character-wise; same as `String.toLower`). -/
def strToLower (s : String) : String :=
  String.mk (s.data.map Char.toLower)

/-- Python slice `s[:n]` (same as `String.take`). -/
def strTake (s : String) (n : Nat) : String :=
  String.mk (s.data.take n)

/-- Python `str.startswith` (same as `String.startsWith`). -/
def strStartsWith (s pre : String) : Bool :=
  pre.data.isPrefixOf s.data

/-- Lexicographic comparison of character lists by code point (Python's
string `<=`). -/
def charListLe : List Char → List Char → Bool
  | [], _ => true
  | _ :: _, [] => false
  | x :: xs, y :: ys => if x = y then charListLe xs ys else decide (x < y)

/-- Python string `<=` (code-point lexicographic, as `sorted` uses). -/
def strLe (a b : String) : Bool :=
  charListLe a.data b.data

/-- The character set Python's `str.strip()` removes (ASCII whitespace). -/
def isPyWhitespace (c : Char) : Bool :=
  c = ' ' || c = '\t' || c = '\n' || c = '\r' || c = '\x0b' || c = '\x0c'

/-- Drop the matching characters from both ends of a character list. -/
def stripCharsList (p : Char → Bool) (l : List Char) : List Char :=
  ((l.dropWhile p).reverse.dropWhile p).reverse

/-- Python `str.strip()`. -/
def pyStrip (s : String) : String :=
  String.mk (stripCharsList isPyWhitespace s.data)

/-- Python `str.strip("/")`. -/
def pyStripSlash (s : String) : String :=
  String.mk (stripCharsList (fun c => c = '/') s.data)

/-- Characters matched by the token class `[a-z0-9]` (applied to lowered text). -/
def isLowerAlnum (c : Char) : Bool :=
  ('a' ≤ c && c ≤ 'z') || ('0' ≤ c && c ≤ '9')

/-- Characters matched by `[A-Za-z0-9]`. -/
def isAsciiAlnum (c : Char) : Bool :=
  ('a' ≤ c && c ≤ 'z') || ('A' ≤ c && c ≤ 'Z') || ('0' ≤ c && c ≤ '9')

/-- Characters matched by `[a-z0-9_]` under `re.IGNORECASE`. -/
def isIdChar (c : Char) : Bool :=
  isAsciiAlnum c || c = '_'

/-- Characters matched by `[A-Za-z0-9_-]` (the `/u/username` mention class). -/
def isMentionChar (c : Char) : Bool :=
  isIdChar c || c = '-'

/-- Maximal runs of characters satisfying `p` (the semantics of
`re.findall` with a single character-class-plus pattern). -/
def charRuns (p : Char → Bool) : List Char → List Char → List (List Char)
  | [], acc => if acc.isEmpty then [] else [acc.reverse]
  | c :: rest, acc =>
    if p c then charRuns p rest (c :: acc)
    else if acc.isEmpty then charRuns p rest []
    else acc.reverse :: charRuns p rest []

/-- `_tokenize_text`: `re.findall(r"[a-z0-9]+", value.lower())`
(`services_common.py`, line 123). -/
def tokenizeText (s : String) : List String :=
  (charRuns isLowerAlnum (s.data.map Char.toLower) []).map String.mk

/-- `re.findall(r"[A-Za-z0-9]+", title)` used by the theme fallback. -/
def rawAlnumRuns (s : String) : List String :=
  (charRuns isAsciiAlnum s.data []).map String.mk

/-- `_normalize_game_lookup_key` (`services_common.py`, line 127). -/
def normalizeGameLookupKey (gameName : String) : String :=
  String.intercalate " " (tokenizeText gameName)

/-- Case-insensitive literal prefix test (`pat` is given lowercase). -/
def matchesPrefixCI : List Char → List Char → Bool
  | _, [] => true
  | [], _ :: _ => false
  | c :: rest, p :: prest => c.toLower = p && matchesPrefixCI rest prest

/-- Leftmost match of `re.search(r"reddit\.com/r/([^/?#]+)", …, re.IGNORECASE)`:
returns the captured group. -/
def searchRedditRCapture : List Char → Option (List Char)
  | [] => none
  | l@(_ :: rest) =>
    if matchesPrefixCI l "reddit.com/r/".data then
      let cap := (l.drop 13).takeWhile fun c => !(c = '/' || c = '?' || c = '#')
      if cap.isEmpty then searchRedditRCapture rest else some cap
    else searchRedditRCapture rest

/-- `_normalize_subreddit` (`services_common.py`, lines 93-105). -/
def normalizeSubreddit (value : String) : String :=
  if value = "" then ""
  else
    let raw := pyStripSlash (pyStrip value)
    let raw :=
      if strStartsWith (strToLower raw) "r/" then String.mk (raw.data.drop 2) else raw
    let raw :=
      match searchRedditRCapture raw.data with
      | some cap => String.mk cap
      | none => raw
    pyStripSlash (pyStrip raw)

/-! ## Data model -/

/-- A mapped Reddit post (`_map_post`, `services_common.py` lines 201-216).
`created_utc` is an integral Unix timestamp. -/
structure Post where
  id : String
  title : String
  selftext : String
  createdUtc : Int
  score : Int
  numComments : Int
  author : String
  subreddit : String
deriving Repr, DecidableEq

/-- A stored comment (`fetch_comments_for_post`, `services_fetch.py`
lines 723-731). -/
structure Comment where
  id : String
  body : String
  score : Int
  createdUtc : Int
  author : String
deriving Repr, DecidableEq

/-- A raw comment row from the mirror before filtering (fields used by
`fetch_comments_for_post`). -/
structure RawComment where
  id : String
  body : String
  score : Int
  createdUtc : Int
  author : String
  parentId : String
deriving Repr, DecidableEq

deriving instance DecidableEq for Except

/-! ## Association-list dictionaries

Python `dict` assignment `d[k] = v` overwrites the value in place when the
key is present (keeping its position) and appends otherwise; iteration order
is insertion order.  `acSet`/`cacheSet` mirror this. -/

/-- Value lookup in an insertion-ordered dictionary. -/
def acGetNat (m : List (String × Nat)) (k : String) : Nat :=
  match m with
  | [] => 0
  | (k', v) :: rest => if k' = k then v else acGetNat rest k

/-- `d[k] = d.get(k, 0) + 1`. -/
def acIncNat (m : List (String × Nat)) (k : String) : List (String × Nat) :=
  match m with
  | [] => [(k, 1)]
  | (k', v) :: rest =>
    if k' = k then (k', v + 1) :: rest else (k', v) :: acIncNat rest k

/-- Dictionary write for a post map keyed by id (`merged_by_id[post["id"]] = post`). -/
def acSetPost (m : List (String × Post)) (k : String) (v : Post) :
    List (String × Post) :=
  match m with
  | [] => [(k, v)]
  | (k', v') :: rest =>
    if k' = k then (k', v) :: rest else (k', v') :: acSetPost rest k v

/-- Generic cache lookup (`cache.get(key)`). -/
def cacheGet {α : Type} (m : List (String × α)) (k : String) : Option α :=
  match m with
  | [] => none
  | (k', v) :: rest => if k' = k then some v else cacheGet rest k

/-- Generic cache write (`cache[key] = value`). -/
def cacheSet {α : Type} (m : List (String × α)) (k : String) (v : α) :
    List (String × α) :=
  match m with
  | [] => [(k, v)]
  | (k', v') :: rest =>
    if k' = k then (k', v) :: rest else (k', v') :: cacheSet rest k v

/-- Erase a key from a cache (used to phrase "the stale entry is ignored"). -/
def cacheErase {α : Type} (m : List (String × α)) (k : String) :
    List (String × α) :=
  match m with
  | [] => []
  | (k', v') :: rest =>
    if k' = k then cacheErase rest k else (k', v') :: cacheErase rest k

/-! ## Quality filter and diversity/recency selection
(`services_common.py`, lines 219-325) -/

/-- The low-quality test of `_apply_quality_filter` (lines 228-233). -/
def isLowQuality (p : Post) : Bool :=
  p.numComments = 0 && p.score ≤ 1 &&
    (p.selftext.length = 0 || p.selftext.length < 80) && p.title.length < 25

/-- `_apply_quality_filter` (lines 219-238): keep exactly the posts that are
not low-quality, preserving order. -/
def applyQualityFilter (posts : List Post) : List Post :=
  posts.filter fun p => !isLowQuality p

/-- `post.get("author", "unknown") or "unknown"`: an empty author falls back
to the literal `"unknown"`. -/
def effAuthor (p : Post) : String :=
  if p.author = "" then "unknown" else p.author

/-- `created_utc > three_days_ago` with `three_days_ago = now - 3*24*60*60`. -/
def isRecent (now : Int) (p : Post) : Bool :=
  now - 259200 < p.createdUtc

/-- State of the primary selection pass of `_apply_diversity_and_recency`. -/
structure PrimSt where
  selected : List Post
  authorCount : List (String × Nat)
  zeroCount : Nat
  deferredRecent : List Post
  recentCount : Nat
deriving Repr

/-- The primary pass of `_apply_diversity_and_recency` (lines 274-299):
walk the rank-sorted posts, stop at capacity, defer cap-violating recent
posts, count selected recent posts. -/
def primaryPass (now : Int) (maxPosts : Nat) : List Post → PrimSt → PrimSt
  | [], st => st
  | p :: rest, st =>
    if maxPosts ≤ st.selected.length then st
    else
      let author := effAuthor p
      let recent := isRecent now p
      if 3 ≤ acGetNat st.authorCount author then
        primaryPass now maxPosts rest
          { st with
            deferredRecent :=
              if recent then st.deferredRecent ++ [p] else st.deferredRecent }
      else if p.numComments = 0 && 20 ≤ st.zeroCount then
        primaryPass now maxPosts rest
          { st with
            deferredRecent :=
              if recent then st.deferredRecent ++ [p] else st.deferredRecent }
      else
        primaryPass now maxPosts rest
          { selected := st.selected ++ [p]
            authorCount := acIncNat st.authorCount author
            zeroCount := if p.numComments = 0 then st.zeroCount + 1 else st.zeroCount
            deferredRecent := st.deferredRecent
            recentCount := if recent then st.recentCount + 1 else st.recentCount }

/-- Index of the last element of `l` satisfying `p`
(`for idx in range(len(selected)-1, -1, -1)` scan of lines 314-319). -/
def lastIdxWhere {α : Type} (p : α → Bool) : List α → Option Nat
  | [] => none
  | x :: rest =>
    match lastIdxWhere p rest with
    | some i => some (i + 1)
    | none => if p x then some 0 else none

/-- The recency backfill loop of `_apply_diversity_and_recency`
(lines 304-323).  Returns the final selection, the final recent count, and
the list of deferred posts the backfill inserted (by append or replacement). -/
def backfillLoop (now : Int) (maxPosts recentTarget : Nat) :
    List Post → List Post → Nat → List Post × Nat × List Post
  | [], sel, rc => (sel, rc, [])
  | p :: rest, sel, rc =>
    if recentTarget ≤ rc then (sel, rc, [])
    else if sel.length < maxPosts then
      let r := backfillLoop now maxPosts recentTarget rest (sel ++ [p]) (rc + 1)
      (r.1, r.2.1, p :: r.2.2)
    else
      match lastIdxWhere (fun q => !isRecent now q) sel with
      | some i =>
        let r := backfillLoop now maxPosts recentTarget rest (sel.set i p) (rc + 1)
        (r.1, r.2.1, p :: r.2.2)
      | none => backfillLoop now maxPosts recentTarget rest sel rc

/-- Stable descending sort by a rank key: Python
`sorted(posts, key=rank, reverse=True)`. -/
def sortByRankDesc (rank : Post → ℚ) (posts : List Post) : List Post :=
  List.insertionSort (fun a b => rank b ≤ rank a) posts

/-- Stable descending sort by `created_utc`
(`deferred_recent.sort(key=…created_utc…, reverse=True)`, line 302). -/
def sortByCreatedDesc (posts : List Post) : List Post :=
  List.insertionSort (fun a b => b.createdUtc ≤ a.createdUtc) posts

/-- `_apply_diversity_and_recency` (lines 257-325), with the selection, final
recent count and backfill insertions exposed.  `rank` stands for
`_calculate_post_rank` (a float computation, abstracted as a parameter). -/
def diversityInternal (rank : Post → ℚ) (now : Int) (posts : List Post)
    (maxPosts : Nat) : List Post × Nat × List Post :=
  if posts = [] then ([], 0, [])
  else
    let sorted := sortByRankDesc rank posts
    let st := primaryPass now maxPosts sorted ⟨[], [], 0, [], 0⟩
    let recentTarget := min 20 maxPosts
    if st.recentCount < recentTarget && !st.deferredRecent.isEmpty then
      backfillLoop now maxPosts recentTarget
        (sortByCreatedDesc st.deferredRecent) st.selected st.recentCount
    else (st.selected, st.recentCount, [])

/-- `_apply_diversity_and_recency`: the returned selection (`selected[:max_posts]`). -/
def applyDiversityAndRecency (rank : Post → ℚ) (now : Int) (posts : List Post)
    (maxPosts : Nat) : List Post :=
  (diversityInternal rank now posts maxPosts).1.take maxPosts

/-- The deferred recent posts the backfill phase inserted into the selection. -/
def backfillInsertions (rank : Post → ℚ) (now : Int) (posts : List Post)
    (maxPosts : Nat) : List Post :=
  (diversityInternal rank now posts maxPosts).2.2

/-- Number of posts in `l` recent w.r.t. `now`. -/
def countRecent (now : Int) (l : List Post) : Nat :=
  (l.filter (isRecent now)).length

/-- Number of posts in `l` by effective author `a`. -/
def countAuthor (a : String) (l : List Post) : Nat :=
  (l.filter fun p => effAuthor p = a).length

/-! ## Post fetcher (`services_fetch.py`, lines 86-126)

The three time-window requests of `WINDOWS` are network calls; their outcomes
are supplied as a list of `Except` values (an exception raised by
`_fetch_posts_window` is `Except.error`).  The post cache is an explicit
association list `subreddit ↦ (timestamp, posts)`. -/

/-- `CACHE_TTL = 600` (`services_common.py`, line 18). -/
def CACHE_TTL : Int := 600

/-- `DISCOVERY_CACHE_TTL = 24*60*60` (`services_common.py`, line 21). -/
def DISCOVERY_CACHE_TTL : Int := 86400

/-- `MULTI_SCAN_CACHE_TTL = 10*60` (`services_common.py`, line 24). -/
def MULTI_SCAN_CACHE_TTL : Int := 600

/-- The window loop of `fetch_reddit_posts` (lines 100-112): merge successful
windows into the id-keyed dict, remember the latest error, stop early once
`2 × target_limit` candidates are merged. -/
def windowMergeLoop (target : Nat) :
    List (Except String (List Post)) → List (String × Post) → Option String →
    List (String × Post) × Option String
  | [], merged, lastErr => (merged, lastErr)
  | w :: rest, merged, lastErr =>
    match w with
    | .error e => windowMergeLoop target rest merged (some e)
    | .ok posts =>
      let merged' := posts.foldl (fun m p => acSetPost m p.id p) merged
      if target * 2 ≤ merged'.length then (merged', lastErr)
      else windowMergeLoop target rest merged' lastErr

/-- A post cache: subreddit ↦ (fetch timestamp, final posts). -/
abbrev PostCache := List (String × (Int × List Post))

/-- The fresh-fetch path of `fetch_reddit_posts` (lines 96-126), reached when
the cache has no fresh entry for the normalized subreddit. -/
def fetchRedditPostsFresh (rank : Post → ℚ)
    (windows : List (Except String (List Post))) (cache : PostCache)
    (now : Int) (normalized : String) (limit : Int) :
    Except String (List Post) × PostCache :=
  let target := (min (max limit 1) 100).toNat
  let r := windowMergeLoop target windows [] none
  if r.1 = [] then
    match r.2 with
    | some e => (.error e, cache)
    | none => (.ok [], cacheSet cache normalized (now, []))
  else
    let candidates := r.1.map (·.2)
    let qualityFiltered := applyQualityFilter candidates
    let highSignal := if qualityFiltered = [] then candidates else qualityFiltered
    let finalPosts := applyDiversityAndRecency rank now highSignal target
    (.ok finalPosts, cacheSet cache normalized (now, finalPosts))

/-- `fetch_reddit_posts(subreddit, limit)` (lines 86-126).  Returns the
call's outcome (`Except.error` models the raised `RuntimeError`) together
with the post cache after the call.  `windows` are the outcomes the mirror
would give for the three `WINDOWS` requests, in order. -/
def fetchRedditPosts (rank : Post → ℚ)
    (windows : List (Except String (List Post))) (cache : PostCache)
    (now : Int) (subreddit : String) (limit : Int) :
    Except String (List Post) × PostCache :=
  let normalized := normalizeSubreddit subreddit
  if normalized = "" then (.ok [], cache)
  else
    match cacheGet cache normalized with
    | some (ts, posts) =>
      if now - ts < CACHE_TTL then (.ok posts, cache)
      else fetchRedditPostsFresh rank windows cache now normalized limit
    | none => fetchRedditPostsFresh rank windows cache now normalized limit

/-! ## Comment cleaning and best-comment selection
(`services_common.py`, lines 328-371) -/

/-- `dropWhile` never lengthens a list (termination helper). -/
theorem dropWhile_length_le (p : Char → Bool) (l : List Char) :
    (l.dropWhile p).length ≤ l.length := by
  induction l with
  | nil => simp [List.dropWhile]
  | cons c rest ih =>
    simp only [List.dropWhile]
    by_cases h : p c
    · simp [h]; omega
    · simp [h]

/-- One scan step of `re.sub(r"/?u/[A-Za-z0-9_-]+", "[user]", …)`:
at each position the regex first tries the variant with the leading slash,
then without; a match consumes the whole mention, otherwise the scan moves
one character right. -/
def replaceMentionsAux : Nat → List Char → List Char
  | 0, l => l
  | fuel + 1, l =>
    match l with
    | [] => []
    | '/' :: 'u' :: '/' :: c :: rest =>
      if isMentionChar c then
        '[' :: 'u' :: 's' :: 'e' :: 'r' :: ']' ::
          replaceMentionsAux fuel (rest.dropWhile isMentionChar)
      else '/' :: replaceMentionsAux fuel ('u' :: '/' :: c :: rest)
    | 'u' :: '/' :: c :: rest =>
      if isMentionChar c then
        '[' :: 'u' :: 's' :: 'e' :: 'r' :: ']' ::
          replaceMentionsAux fuel (rest.dropWhile isMentionChar)
      else 'u' :: replaceMentionsAux fuel ('/' :: c :: rest)
    | c :: rest => c :: replaceMentionsAux fuel rest

def replaceMentionsList (l : List Char) : List Char :=
  replaceMentionsAux l.length l

/-- `COMMENT_BODY_TRUNCATE = 400` (`services_common.py`, line 69). -/
def COMMENT_BODY_TRUNCATE : Nat := 400

/-- `_clean_comment_body` (lines 328-333): strip, replace `/u/…` mentions
with `[user]`, truncate to 400 characters with an ellipsis. -/
def cleanCommentBody (body : String) : String :=
  let clean := String.mk (replaceMentionsList (pyStrip body).data)
  if COMMENT_BODY_TRUNCATE < clean.length then
    strTake clean COMMENT_BODY_TRUNCATE ++ "..."
  else clean

/-- The comment projection built when a comment is selected
(lines 358-366): the body is cleaned, the other fields are copied. -/
def cleanSelected (c : Comment) : Comment :=
  { id := c.id, body := cleanCommentBody c.body, score := c.score,
    createdUtc := c.createdUtc, author := c.author }

/-- The sort order of `_select_best_comments` (lines 337-345):
`a` may sort before `b` when the key `(score, len(body), created_utc)` of
`a` is lexicographically at least that of `b` (Python
`sorted(…, key=…, reverse=True)`, which is stable). -/
def commentKeyGe (a b : Comment) : Prop :=
  b.score < a.score ∨
    (b.score = a.score ∧
      (b.body.length < a.body.length ∨
        (b.body.length = a.body.length ∧ b.createdUtc ≤ a.createdUtc)))

instance : DecidableRel commentKeyGe := fun a b => by
  unfold commentKeyGe; infer_instance

instance : IsTotal Comment commentKeyGe :=
  ⟨by intro a b; unfold commentKeyGe; omega⟩

instance : IsTrans Comment commentKeyGe :=
  ⟨by intro a b c hab hbc; unfold commentKeyGe at hab hbc ⊢; omega⟩

/-- The selection loop of `_select_best_comments` (lines 350-369): walk the
sorted comments, stop at `max_count`, cap each nonempty lowercased author at
2 selected comments, clean the body of each selected comment. -/
def selectLoop (maxCount : Nat) :
    List Comment → List Comment → List (String × Nat) → List Comment
  | [], sel, _ => sel
  | c :: rest, sel, counts =>
    if maxCount ≤ sel.length then sel
    else
      let a := strToLower c.author
      if a ≠ "" && 2 ≤ acGetNat counts a then selectLoop maxCount rest sel counts
      else
        selectLoop maxCount rest (sel ++ [cleanSelected c])
          (if a = "" then counts else acIncNat counts a)

/-- `_select_best_comments(comments, max_count)` (lines 336-371). -/
def selectBestComments (comments : List Comment) (maxCount : Nat) : List Comment :=
  selectLoop maxCount (List.insertionSort commentKeyGe comments) [] []

/-- The outcome of the mirror's comments-search request as
`fetch_comments_for_post` distinguishes them: HTTP 404/400 (empty result),
a well-formed 200 row list, or any raising condition (other HTTP status,
invalid JSON, bad format). -/
inductive CommentsResp where
  | notFound
  | ok (rows : List RawComment)
  | err (msg : String)

/-- The per-row filter of `fetch_comments_for_post` (lines 711-731): keep
top-level comments (`parent_id` empty or `t3_…`) with a nonempty stripped
body that is not `[deleted]`/`[removed]`; store the stripped body. -/
def filterRawComments (rows : List RawComment) : List Comment :=
  rows.filterMap fun item =>
    if item.parentId ≠ "" && !strStartsWith item.parentId "t3_" then none
    else
      let body := pyStrip item.body
      if body = "" || body = "[deleted]" || body = "[removed]" then none
      else some { id := item.id, body := body, score := item.score,
                  createdUtc := item.createdUtc, author := item.author }

/-- A comment cache: post id ↦ (fetch timestamp, stored comment set). -/
abbrev CommentCache := List (String × (Int × List Comment))

/-- The fresh path of `fetch_comments_for_post` (lines 678-734). -/
def fetchCommentsFresh (resp : CommentsResp) (cache : CommentCache)
    (now : Int) (postId : String) (limit : Int) :
    Except String (List Comment) × CommentCache :=
  match resp with
  | .notFound => (.ok [], cacheSet cache postId (now, []))
  | .err e => (.error e, cache)
  | .ok rows =>
    let comments := filterRawComments rows
    (.ok (selectBestComments comments (min (max limit 1) 100).toNat),
      cacheSet cache postId (now, comments))

/-- `fetch_comments_for_post(post_id, limit)` (`services_fetch.py`,
lines 668-734).  `resp` is the mirror's response; the comment cache is
explicit.  Both the cache-hit and the fresh path return
`_select_best_comments(stored, min(max(limit, 1), 100))`. -/
def fetchCommentsForPost (resp : CommentsResp) (cache : CommentCache)
    (now : Int) (postId : String) (limit : Int) :
    Except String (List Comment) × CommentCache :=
  if postId = "" then (.ok [], cache)
  else
    match cacheGet cache postId with
    | some (ts, stored) =>
      if now - ts < CACHE_TTL then
        (.ok (selectBestComments stored (min (max limit 1) 100).toNat), cache)
      else fetchCommentsFresh resp cache now postId limit
    | none => fetchCommentsFresh resp cache now postId limit

/-! ## Evidence-link normalization (`services_analysis.py`, lines 128-153) -/

/-- `_format_permalink` (`services_common.py`, line 197). -/
def formatPermalink (postId : String) : String :=
  "https://www.reddit.com/comments/" ++ postId ++ "/"

/-- Leftmost match of
`re.search(r"reddit\.com/comments/([a-z0-9_]+)", …, re.IGNORECASE)`:
returns the captured (case-preserved) id, which is always nonempty. -/
def searchCommentsIdCapture : List Char → Option (List Char)
  | [] => none
  | l@(_ :: rest) =>
    if matchesPrefixCI l "reddit.com/comments/".data then
      let cap := (l.drop 20).takeWhile isIdChar
      if cap.isEmpty then searchCommentsIdCapture rest else some cap
    else searchCommentsIdCapture rest

/-- `re.fullmatch(r"[a-z0-9_]{5,}", candidate, re.IGNORECASE)`. -/
def bareIdMatch (s : String) : Bool :=
  5 ≤ s.length && s.data.all isIdChar

/-- The accumulation loop of `_normalize_evidence_links` (lines 136-151):
canonicalize each entry, dropping non-matching ones and duplicates. -/
def evidenceFold : List String → List String → List String
  | [], acc => acc
  | raw :: rest, acc =>
    let candidate := pyStrip raw
    if candidate = "" then evidenceFold rest acc
    else
      match searchCommentsIdCapture candidate.data with
      | some cap =>
        let canonical := formatPermalink (String.mk cap)
        evidenceFold rest (if canonical ∈ acc then acc else acc ++ [canonical])
      | none =>
        if bareIdMatch candidate then
          let canonical := formatPermalink candidate
          evidenceFold rest (if canonical ∈ acc then acc else acc ++ [canonical])
        else evidenceFold rest acc

/-- `_normalize_evidence_links(value)` for a list input (lines 128-153):
each entry of the list is `str(v).strip()`-ed and empty entries are dropped
(line 131); the result keeps at most the first 2 canonical links.
(A plain-string input is the singleton list; other input types yield `[]`.) -/
def normalizeEvidenceLinks (value : List String) : List String :=
  (evidenceFold ((value.map pyStrip).filter (· ≠ "")) []).take 2

/-! ## `[POST:id]` references (`_extract_post_ids`, line 584) -/

/-- Try to match `\[POST:([A-Za-z0-9_]+)\]` at the head of the list;
returns the capture and the number of characters the match consumes. -/
def matchPostRef (l : List Char) : Option (List Char × Nat) :=
  match l with
  | '[' :: 'P' :: 'O' :: 'S' :: 'T' :: ':' :: rest =>
    let run := rest.takeWhile isIdChar
    if run.isEmpty then none
    else
      match rest.drop run.length with
      | ']' :: _ => some (run, 6 + run.length + 1)
      | _ => none
  | _ => none

/-- `re.findall` scan for `\[POST:([A-Za-z0-9_]+)\]`: each step either
consumes a full non-overlapping match or advances one character, so
`fuel = l.length` steps always complete the scan. -/
def extractPostIdsAux : Nat → List Char → List (List Char)
  | 0, _ => []
  | fuel + 1, l =>
    match matchPostRef l with
    | some (cap, k) => cap :: extractPostIdsAux fuel (l.drop k)
    | none =>
      match l with
      | [] => []
      | _ :: rest => extractPostIdsAux fuel rest

/-- `_extract_post_ids(text)` (`services_analysis.py`, lines 584-585). -/
def extractPostIds (text : String) : List String :=
  (extractPostIdsAux text.data.length text.data).map String.mk

/-! ## Insight items and analysis results -/

/-- A normalized pain-point / win item `{text, evidence}`. -/
structure InsightItem where
  text : String
  evidence : List String
deriving Repr, DecidableEq

/-- A normalized analysis result (the fixed schema of §`_normalize_analysis`). -/
structure AnalysisResult where
  sentimentLabel : String
  sentimentSummary : String
  themes : List String
  painPoints : List InsightItem
  wins : List InsightItem
deriving Repr, DecidableEq

/-- `_normalize_analysis({})` (lines 218-225): every `get` misses, so the
label normalizes to `"Unknown"` (`_normalize_sentiment_label(None)`), the
summary to `""`, and themes/pain points/wins to `[]`
(`_normalize_themes(None) = _normalize_insight_items(None) = []`). -/
def emptyNormalizedAnalysis : AnalysisResult :=
  { sentimentLabel := "Unknown", sentimentSummary := "", themes := [],
    painPoints := [], wins := [] }

/-! ## Deterministic schema fallback (`services_analysis.py`, lines 228-407) -/

/-- `NEGATIVE_SIGNAL_TERMS` (lines 238-242). -/
def NEGATIVE_SIGNAL_TERMS : List String :=
  ["bug", "broken", "issue", "issues", "crash", "crashes", "lag", "stutter",
   "cheater", "cheaters", "queue", "matchmaking", "delay", "disconnect",
   "exploit", "unbalanced", "frustrating", "refund", "paywall", "grind",
   "toxic", "nerf"]

/-- `POSITIVE_SIGNAL_TERMS` (lines 245-248). -/
def POSITIVE_SIGNAL_TERMS : List String :=
  ["fun", "great", "good", "love", "enjoy", "smooth", "awesome", "improved",
   "improvement", "best", "better", "satisfying", "hype", "rewarding",
   "polished", "addictive", "fair"]

/-- `THEME_STOP_WORDS` (lines 251-256). -/
def THEME_STOP_WORDS : List String :=
  ["the", "and", "with", "from", "this", "that", "have", "your", "about",
   "into", "they", "their", "them", "what", "when", "where", "which", "were",
   "been", "just", "also", "more", "some", "many", "over", "than", "there",
   "users", "community", "game", "reddit", "post", "like", "would", "most",
   "much", "could", "should", "really", "still", "very", "make", "makes",
   "made", "stand"]

/-- Python substring containment `needle in hay`. -/
def listContainsSub (needle : List Char) : List Char → Bool
  | [] => needle.isEmpty
  | hay@(_ :: t) => needle.isPrefixOf hay || listContainsSub needle t

/-- `term in text_blob` for a `String`. -/
def containsTerm (blob term : String) : Bool :=
  listContainsSub term.data blob.data

/-- `_post_signal_blob` (line 228): `f"{title} {selftext}".lower()`. -/
def postSignalBlob (p : Post) : String :=
  strToLower (p.title ++ " " ++ p.selftext)

/-- `_has_negative_signal` (line 259). -/
def hasNegativeSignal (blob : String) : Bool :=
  NEGATIVE_SIGNAL_TERMS.any fun t => containsTerm blob t

/-- `_has_positive_signal` (line 263). -/
def hasPositiveSignal (blob : String) : Bool :=
  POSITIVE_SIGNAL_TERMS.any fun t => containsTerm blob t

/-- Accumulate a weight onto a phrase in an insertion-ordered score dict
(`scored_phrases[phrase] = scored_phrases.get(phrase, 0.0) + weight`). -/
def acAddRat (m : List (String × ℚ)) (k : String) (w : ℚ) : List (String × ℚ) :=
  match m with
  | [] => [(k, w)]
  | (k', v) :: rest =>
    if k' = k then (k', v + w) :: rest else (k', v) :: acAddRat rest k w

/-- The `n`-gram phrases of a token list
(`" ".join(tokens[idx : idx + n])` for `idx in range(len(tokens) - n + 1)`). -/
def nGramPhrases (n : Nat) (tokens : List String) : List String :=
  if tokens.length < n then []
  else
    (List.range (tokens.length - n + 1)).map fun idx =>
      String.intercalate " " ((tokens.drop idx).take n)

/-- Per-post phrase scoring of `_extract_theme_phrases_from_titles`
(lines 270-288): stop-word-filtered title tokens, 3-grams then 2-grams, each
weighted by the post's engagement weight (`engW`, a float abstracted as ℚ). -/
def scorePhrasesForPost (engW : Post → ℚ) (p : Post)
    (scored : List (String × ℚ)) : List (String × ℚ) :=
  let tokens := (tokenizeText p.title).filter fun t =>
    2 < t.length && !(THEME_STOP_WORDS.contains t)
  if tokens.length < 2 then scored
  else
    let weight := engW p
    (nGramPhrases 3 tokens ++ nGramPhrases 2 tokens).foldl
      (fun m phrase =>
        if THEME_STOP_WORDS.contains phrase then m else acAddRat m phrase weight)
      scored

/-- The no-scored-phrases fallback loop of
`_extract_theme_phrases_from_titles` (lines 296-308). -/
def themeFallbackPhrasesAux (maxPhrases : Nat) :
    List Post → List String → List String
  | [], acc => acc
  | p :: rest, acc =>
    let title := pyStrip p.title
    if title = "" then themeFallbackPhrasesAux maxPhrases rest acc
    else
      let words := (rawAlnumRuns title).filter fun w => 2 < w.length
      let acc' :=
        if 2 ≤ words.length then
          let phrase := strToLower (String.intercalate " " (words.take (min 4 words.length)))
          if phrase ∈ acc then acc else acc ++ [phrase]
        else acc
      if maxPhrases ≤ acc'.length then acc'
      else themeFallbackPhrasesAux maxPhrases rest acc'

/-- `_extract_theme_phrases_from_titles(posts, max_phrases)` (lines 267-309). -/
def extractThemePhrasesFromTitles (engW : Post → ℚ) (posts : List Post)
    (maxPhrases : Nat) : List String :=
  let scored := posts.foldl (fun m p => scorePhrasesForPost engW p m) []
  let ranked := List.insertionSort (fun a b : String × ℚ => b.2 ≤ a.2) scored
  let phrases := (ranked.map (·.1)).take (max maxPhrases 1)
  if phrases ≠ [] then phrases
  else themeFallbackPhrasesAux maxPhrases posts []

/-- Python `str.title()` for the ASCII phrases built above. -/
def pyTitleAux : Bool → List Char → List Char
  | _, [] => []
  | prevCased, c :: rest =>
    if c.isAlpha then
      (if prevCased then c.toLower else c.toUpper) :: pyTitleAux true rest
    else c :: pyTitleAux false rest

/-- Python `str.title()`. -/
def pyTitleCase (s : String) : String :=
  String.mk (pyTitleAux false s.data)

/-- The constant `_build_schema_fallback` returns when there are no posts
(lines 316-329). -/
def emptyDataFallback : AnalysisResult :=
  { sentimentLabel := "Mixed"
    sentimentSummary := "Sentiment appears mixed, but there is not enough post data to produce a reliable breakdown."
    themes := ["Limited data - not enough high-signal posts to determine concrete product themes"]
    painPoints := [{ text := "Insufficient data to identify repeated pain points.", evidence := [] }]
    wins := [{ text := "Insufficient data to identify repeated wins.", evidence := [] }] }

/-- A placeholder post (never observed: list indexing below is always guarded
by nonemptiness). -/
def defaultPost : Post :=
  { id := "", title := "", selftext := "", createdUtc := 0, score := 0,
    numComments := 0, author := "", subreddit := "" }

/-- `_build_schema_fallback(posts, game_name)` (lines 312-407).  `rank`
stands for `_calculate_post_rank` and `engW` for `_post_engagement_weight`
(floats abstracted as ℚ parameters); the float literal `1.15` is the exact
rational `23/20` here (only the three-way classification shape matters for
the claims below).  `game_name` is unused by the source body. -/
def buildSchemaFallback (rank engW : Post → ℚ) (posts : List Post) :
    AnalysisResult :=
  let rankedPosts := sortByRankDesc rank posts
  let topPosts := rankedPosts.take 15
  if topPosts = [] then emptyDataFallback
  else
    let weights := topPosts.foldl
      (fun (acc : ℚ × ℚ) p =>
        let blob := postSignalBlob p
        let w := engW p
        (if hasPositiveSignal blob then acc.1 + w else acc.1,
         if hasNegativeSignal blob then acc.2 + w else acc.2))
      (0, 0)
    let sentimentLabel :=
      if weights.1 * (23 / 20 : ℚ) < weights.2 then "Negative"
      else if weights.2 * (23 / 20 : ℚ) < weights.1 then "Positive"
      else "Mixed"
    let refs := topPosts.filterMap fun p =>
      let s := pyStrip p.id
      if s = "" then none else some s
    let refOne := refs.headD ""
    let refTwo := if 1 < refs.length then refs.getD 1 "" else refOne
    let sentimentSummary := pyStrip
      ("Overall sentiment is " ++ strToLower sentimentLabel ++
       ", driven by repeated high-engagement product feedback. " ++
       "Primary friction and upside signals are visible in [POST:" ++ refOne ++
       "] and [POST:" ++ refTwo ++ "] where available.")
    let phrases := extractThemePhrasesFromTitles engW topPosts 6
    let phrases :=
      if phrases = [] then
        ["gameplay feedback patterns", "content pacing concerns",
         "progression and balance issues"]
      else phrases
    let themes := (phrases.take 6).enum.map fun ip =>
      let ref := if refs = [] then "" else refs.getD (ip.1 % refs.length) ""
      let suffix := if ref ≠ "" then " [POST:" ++ ref ++ "]" else ""
      pyTitleCase ip.2 ++
        " - repeated player discussion with concrete product implications" ++ suffix
    let negativePosts := topPosts.filter fun p => hasNegativeSignal (postSignalBlob p)
    let negativePosts :=
      if negativePosts = [] then
        if 5 ≤ topPosts.length then topPosts.drop (topPosts.length - 5) else topPosts
      else negativePosts
    let positivePosts := topPosts.filter fun p => hasPositiveSignal (postSignalBlob p)
    let positivePosts := if positivePosts = [] then topPosts.take 5 else positivePosts
    let painPoints := (List.range 5).map fun idx =>
      let painPost := negativePosts.getD (idx % negativePosts.length) defaultPost
      let painTitle := pyStrip
        (if painPost.title = "" then "Player-reported product issue" else painPost.title)
      let painId := pyStrip painPost.id
      { text := "Players report friction around: " ++ strTake painTitle 170,
        evidence := if painId ≠ "" then [formatPermalink painId] else [] }
    let wins := (List.range 5).map fun idx =>
      let winPost := positivePosts.getD (idx % positivePosts.length) defaultPost
      let winTitle := pyStrip
        (if winPost.title = "" then "Player-reported product strength" else winPost.title)
      let winId := pyStrip winPost.id
      { text := "Players highlight a positive signal in: " ++ strTake winTitle 170,
        evidence := if winId ≠ "" then [formatPermalink winId] else [] }
    { sentimentLabel := sentimentLabel, sentimentSummary := sentimentSummary,
      themes := themes, painPoints := painPoints, wins := wins }

/-! ## Evidence backfill and schema enforcement
(`services_analysis.py`, lines 410-478) -/

/-- The `[POST:id]`-to-link loop of `_ensure_evidence_for_items`
(lines 426-431) and `_normalize_insight_items` (lines 190-196): append
deduplicated permalinks, stopping once 2 links are present. -/
def addPermalinksFromIds : List String → List String → List String
  | [], acc => acc
  | pid :: rest, acc =>
    let link := formatPermalink pid
    let acc' := if link ∈ acc then acc else acc ++ [link]
    if 2 ≤ acc'.length then acc' else addPermalinksFromIds rest acc'

/-- The `fallback_links` of `_ensure_evidence_for_items` (lines 414-418):
permalinks of the rank-sorted fallback posts with nonempty stripped ids. -/
def fallbackLinksOf (rank : Post → ℚ) (fallbackPosts : List Post) : List String :=
  (sortByRankDesc rank fallbackPosts).filterMap fun p =>
    let pid := pyStrip p.id
    if pid = "" then none else some (formatPermalink pid)

/-- `_ensure_evidence_for_items(items, fallback_posts)` (lines 410-439). -/
def ensureEvidenceForItems (rank : Post → ℚ) (items : List InsightItem)
    (fallbackPosts : List Post) : List InsightItem :=
  if items = [] then []
  else
    let fallbackLinks := fallbackLinksOf rank fallbackPosts
    items.enum.map fun ii =>
      let textValue := pyStrip ii.2.text
      let evidence := normalizeEvidenceLinks ii.2.evidence
      let evidence :=
        if evidence = [] then addPermalinksFromIds (extractPostIds textValue) []
        else evidence
      let evidence :=
        if evidence = [] && !fallbackLinks.isEmpty then
          evidence ++ [fallbackLinks.getD (ii.1 % fallbackLinks.length) ""]
        else evidence
      { text := textValue, evidence := evidence.take 2 }

/-- `ensure_valid_analysis_schema(result, fallback_posts, game_name)`
(lines 442-478), applied to an already-normalized result (the function's
first step `_normalize_analysis(result)` is the identity on this
representation).  `game_name` is only forwarded to the fallback builder,
which ignores it. -/
def ensureValidAnalysisSchema (rank engW : Post → ℚ)
    (normalized : AnalysisResult) (fallbackPosts : List Post) : AnalysisResult :=
  let fallback := buildSchemaFallback rank engW fallbackPosts
  let sentimentLabel :=
    if normalized.sentimentLabel = "Positive" ||
        normalized.sentimentLabel = "Mixed" ||
        normalized.sentimentLabel = "Negative" then
      normalized.sentimentLabel
    else fallback.sentimentLabel
  let sentimentSummary := pyStrip normalized.sentimentSummary
  let sentimentSummary :=
    if sentimentSummary = "" then fallback.sentimentSummary else sentimentSummary
  let themes := if normalized.themes = [] then fallback.themes else normalized.themes
  let painPoints :=
    if normalized.painPoints = [] then fallback.painPoints else normalized.painPoints
  let painPoints := ensureEvidenceForItems rank (painPoints.take 5) fallbackPosts
  let wins := if normalized.wins = [] then fallback.wins else normalized.wins
  let wins := ensureEvidenceForItems rank (wins.take 5) fallbackPosts
  { sentimentLabel := sentimentLabel, sentimentSummary := sentimentSummary,
    themes := themes.take 10, painPoints := painPoints.take 5,
    wins := wins.take 5 }

/-- `analyze_posts_with_ai(posts, comments, game_name, keywords)`
(`services_analysis.py`, lines 518-528) on the branch where no
`OPENAI_API_KEY` is configured: the function prints a notice and returns
`ensure_valid_analysis_schema({}, posts, game_name=game_name)` without any
network call (so this branch cannot raise).  `comments` and `keywords` are
unused on this branch. -/
def analyzePostsWithAiNoKey (rank engW : Post → ℚ) (posts : List Post) :
    AnalysisResult :=
  ensureValidAnalysisSchema rank engW emptyNormalizedAnalysis posts

/-! ## Multi-subreddit orchestrator (`services_breakdown.py`) -/

/-- `MAX_MULTI_SUBREDDITS = 5` (`services_common.py`, line 54). -/
def MAX_MULTI_SUBREDDITS : Nat := 5

/-- The loop of `_normalize_subreddit_list` (lines 39-55): normalize each
entry, skip empty or (case-insensitively) already-seen names, stop once
`max_items` unique names are collected. -/
def normListAux (maxItems : Nat) : List String → List String → Nat → List String
  | [], _, _ => []
  | raw :: rest, seen, count =>
    let e := normalizeSubreddit raw
    if e = "" then normListAux maxItems rest seen count
    else if strToLower e ∈ seen then normListAux maxItems rest seen count
    else if maxItems ≤ count + 1 then [e]
    else e :: normListAux maxItems rest (strToLower e :: seen) (count + 1)

/-- `_normalize_subreddit_list(subreddits, max_items)` (lines 39-55). -/
def normalizeSubredditList (subreddits : List String) (maxItems : Nat) :
    List String :=
  normListAux maxItems subreddits [] 0

/-- Lowercase hex digit (Python `json.dumps` emits lowercase `\uXXXX`). -/
def hexDigit (n : Nat) : Char :=
  if n < 10 then Char.ofNat (48 + n) else Char.ofNat (87 + n)

/-- A `\uXXXX` escape for a 16-bit value. -/
def u16Escape (n : Nat) : List Char :=
  ['\\', 'u', hexDigit (n / 4096 % 16), hexDigit (n / 256 % 16),
   hexDigit (n / 16 % 16), hexDigit (n % 16)]

/-- Per-character JSON string escaping as `json.dumps` (default
`ensure_ascii=True`) performs it. -/
def escapeJsonChar (c : Char) : List Char :=
  if c = '"' then ['\\', '"']
  else if c = '\\' then ['\\', '\\']
  else if c = '\n' then ['\\', 'n']
  else if c = '\t' then ['\\', 't']
  else if c = '\r' then ['\\', 'r']
  else if c.toNat = 8 then ['\\', 'b']
  else if c.toNat = 12 then ['\\', 'f']
  else if c.toNat < 32 then u16Escape c.toNat
  else if c.toNat < 127 then [c]
  else if c.toNat < 65536 then u16Escape c.toNat
  else
    u16Escape (55296 + (c.toNat - 65536) / 1024) ++
      u16Escape (56320 + (c.toNat - 65536) % 1024)

/-- A JSON string literal. -/
def jsonStr (s : String) : String :=
  "\"" ++ String.mk (s.data.map escapeJsonChar).flatten ++ "\""

/-- A JSON array of strings (`separators=(",", ":")`). -/
def jsonStringList (l : List String) : String :=
  "[" ++ String.intercalate "," (l.map jsonStr) ++ "]"

/-- A JSON boolean. -/
def jsonBool (b : Bool) : String :=
  if b then "true" else "false"

/-- `_build_multi_scan_cache_key(subreddits, game_name, keywords,
include_breakdown)` (`services_breakdown.py`, lines 58-70):
`json.dumps(payload, sort_keys=True, separators=(",", ":"))` of the payload
dict; `sort_keys` puts the keys in the order `game_name`,
`include_breakdown`, `keywords`, `subreddits`, and the subreddit list is
`sorted([s.lower() for s in subreddits])`. -/
def buildMultiScanCacheKey (subreddits : List String) (gameName keywords : String)
    (includeBreakdown : Bool) : String :=
  let sortedSubs := List.insertionSort
    (fun a b => charListLe a.data b.data = true) (subreddits.map strToLower)
  "\x7b\"game_name\":" ++ jsonStr (normalizeGameLookupKey gameName) ++
    ",\"include_breakdown\":" ++ jsonBool includeBreakdown ++
    ",\"keywords\":" ++ jsonStr (String.intercalate " " (tokenizeText keywords)) ++
    ",\"subreddits\":" ++ jsonStringList sortedSubs ++ "\x7d"

/-- Append a post to the per-subreddit group dict
(`grouped.setdefault(subreddit, []).append(post)`). -/
def acAppendPost (m : List (String × List Post)) (k : String) (p : Post) :
    List (String × List Post) :=
  match m with
  | [] => [(k, [p])]
  | (k', ps) :: rest =>
    if k' = k then (k', ps ++ [p]) :: rest else (k', ps) :: acAppendPost rest k p

/-- `_build_posts_by_subreddit(posts)` (`services_breakdown.py`,
lines 73-86): group by normalized subreddit, keep each group's top 8 by rank
(`BREAKDOWN_MAX_POSTS_PER_SUBREDDIT = 8`). -/
def buildPostsBySubreddit (rank : Post → ℚ) (posts : List Post) :
    List (String × List Post) :=
  let grouped := posts.foldl
    (fun acc p =>
      let sub := normalizeSubreddit p.subreddit
      if sub = "" then acc else acAppendPost acc sub p)
    []
  grouped.map fun g => (g.1, (sortByRankDesc rank g.2).take 8)

/-- The `meta` block of a multi-scan result. -/
structure ScanMeta where
  subreddits : List String
  postsAnalysed : Nat
  commentsSampled : Nat
  lastScanned : String
deriving Repr, DecidableEq

/-- The internal multi-scan result cached by `scan_multiple_subreddits`
(lines 787-798); `β` is the shape of the per-subreddit breakdown payload. -/
structure ScanResult (β : Type) where
  overall : AnalysisResult
  meta : ScanMeta
  subredditBreakdown : β
  internalPosts : List Post
  internalComments : List Comment
deriving Repr, DecidableEq

/-- `_public_multi_scan_result(result)` (lines 718-723): the caller-visible
projection without the `_posts`/`_comments` internals. -/
structure PublicScanResult (β : Type) where
  overall : AnalysisResult
  meta : ScanMeta
  subredditBreakdown : β
deriving Repr, DecidableEq

/-- `_public_multi_scan_result`. -/
def publicMultiScanResult {β : Type} (r : ScanResult β) : PublicScanResult β :=
  { overall := r.overall, meta := r.meta,
    subredditBreakdown := r.subredditBreakdown }

/-- The network/LLM collaborators `scan_multiple_subreddits` awaits, as
oracles (each is fully determined by the external world for the fixed
`game_name`/`keywords` of one call): `fetch_posts_for_subreddits(…, 80, 150)`
(swallows per-subreddit failures, so total), `sample_comments_for_posts`
(whose exception the caller swallows into `[]`), `analyze_posts_with_ai`
(never raises) and `analyze_subreddit_breakdown_with_ai` (never raises). -/
structure ScanOracles (β : Type) where
  fetchPosts : List String → List Post
  sampleComments : List Post → Except String (List Comment)
  analyzeOverall : List Post → List Comment → AnalysisResult
  breakdownFn : List (String × List Post) → β

/-- A multi-scan cache. -/
abbrev ScanCache (β : Type) := List (String × (Int × ScanResult β))

/-- The fresh path of `scan_multiple_subreddits` (lines 752-803) for the
public (`include_internal=False`) route. -/
def scanFresh {β : Type} (o : ScanOracles β) (rank : Post → ℚ) (emptyB : β)
    (cache : ScanCache β) (now : Int) (nowStr : String)
    (normalized : List String) (key : String) (includeBreakdown : Bool) :
    Except String (PublicScanResult β) × ScanCache β :=
  let posts := o.fetchPosts normalized
  if posts = [] then
    (.error ("No posts found for selected subreddits: " ++
      String.intercalate ", " (normalized.map fun s => "r/" ++ s)), cache)
  else
    let comments :=
      match o.sampleComments posts with
      | .ok cs => cs
      | .error _ => []
    let overall := o.analyzeOverall posts comments
    let postsBySub := buildPostsBySubreddit rank posts
    let breakdown := if includeBreakdown then o.breakdownFn postsBySub else emptyB
    let result : ScanResult β :=
      { overall := overall
        meta := { subreddits := normalized, postsAnalysed := posts.length,
                  commentsSampled := comments.length, lastScanned := nowStr }
        subredditBreakdown := breakdown
        internalPosts := posts
        internalComments := comments }
    (.ok (publicMultiScanResult result), cacheSet cache key (now, result))

/-- `scan_multiple_subreddits(subreddits, game_name, keywords,
include_breakdown)` (lines 726-803), public route
(`include_internal=False`).  `Except.error` models the raised
`RuntimeError`s. -/
def scanMultipleSubreddits {β : Type} (o : ScanOracles β) (rank : Post → ℚ)
    (emptyB : β) (cache : ScanCache β) (now : Int) (nowStr : String)
    (subreddits : List String) (gameName keywords : String)
    (includeBreakdown : Bool) :
    Except String (PublicScanResult β) × ScanCache β :=
  let normalized := normalizeSubredditList subreddits MAX_MULTI_SUBREDDITS
  if normalized = [] then
    (.error "At least one valid subreddit is required", cache)
  else
    let key := buildMultiScanCacheKey normalized gameName keywords includeBreakdown
    match cacheGet cache key with
    | some (ts, res) =>
      if now - ts < MULTI_SCAN_CACHE_TTL then (.ok (publicMultiScanResult res), cache)
      else scanFresh o rank emptyB cache now nowStr normalized key includeBreakdown
    | none => scanFresh o rank emptyB cache now nowStr normalized key includeBreakdown

/-! ## The discovery and per-subreddit-breakdown cache guards -/

/-- The cache guard of `discover_subreddits_for_game`
(`services_fetch.py`, lines 443-446): a fresh entry is served as
`cached[1][:safe_max]`; otherwise the call proceeds to the fresh fetch,
whose outcome is `fresh`. -/
def discoveryCacheStep {α : Type} (cache : List (String × (Int × List α)))
    (now : Int) (lookupKey : String) (safeMax : Nat) (fresh : List α) : List α :=
  match cacheGet cache lookupKey with
  | some (ts, rows) =>
    if now - ts < DISCOVERY_CACHE_TTL then rows.take safeMax else fresh
  | none => fresh

/-- The cache guard of `_analyze_single_subreddit`
(`services_breakdown.py`, lines 635-638): a fresh entry is served as the
cached row; otherwise the call proceeds to the fresh analysis, whose
outcome is `fresh`. -/
def breakdownCacheStep {α : Type} (cache : List (String × (Int × α)))
    (now : Int) (cacheKey : String) (fresh : α) : α :=
  match cacheGet cache cacheKey with
  | some (ts, row) =>
    if now - ts < MULTI_SCAN_CACHE_TTL then row else fresh
  | none => fresh

/-! ## General cache lemmas -/

/-- Erasing a key makes its lookup miss. -/
theorem cacheGet_cacheErase {α : Type} (m : List (String × α)) (k : String) :
    cacheGet (cacheErase m k) k = none := by
  induction m with
  | nil => rfl
  | cons hd tl ih =>
    obtain ⟨k', v'⟩ := hd
    simp only [cacheErase]
    by_cases h : k' = k
    · simp [h, ih]
    · simp [cacheGet, h, ih]

/-- The outcome (first component) of the fresh post fetch does not depend on
the incoming cache. -/
theorem fetchRedditPostsFresh_fst_indep (rank : Post → ℚ)
    (windows : List (Except String (List Post))) (c c' : PostCache)
    (now : Int) (normalized : String) (limit : Int) :
    (fetchRedditPostsFresh rank windows c now normalized limit).1 =
      (fetchRedditPostsFresh rank windows c' now normalized limit).1 := by
  simp only [fetchRedditPostsFresh]
  split
  · split <;> rfl
  · rfl

/-- The outcome of the fresh comments fetch does not depend on the incoming
cache. -/
theorem fetchCommentsFresh_fst_indep (resp : CommentsResp)
    (c c' : CommentCache) (now : Int) (postId : String) (limit : Int) :
    (fetchCommentsFresh resp c now postId limit).1 =
      (fetchCommentsFresh resp c' now postId limit).1 := by
  cases resp <;> rfl

/-- The outcome of the fresh multi-scan does not depend on the incoming
cache. -/
theorem scanFresh_fst_indep {β : Type} (o : ScanOracles β) (rank : Post → ℚ)
    (emptyB : β) (c c' : ScanCache β) (now : Int) (nowStr : String)
    (normalized : List String) (key : String) (includeBreakdown : Bool) :
    (scanFresh o rank emptyB c now nowStr normalized key includeBreakdown).1 =
      (scanFresh o rank emptyB c' now nowStr normalized key includeBreakdown).1 := by
  simp only [scanFresh]
  split <;> rfl

/-! ## Claim C10 -/

/-- On the raising path, the fresh post fetch leaves the cache untouched. -/
theorem fetchRedditPostsFresh_error_cache (rank : Post → ℚ)
    (windows : List (Except String (List Post))) (cache c' : PostCache)
    (now : Int) (normalized : String) (limit : Int) (e : String)
    (h : fetchRedditPostsFresh rank windows cache now normalized limit =
      (.error e, c')) : c' = cache := by
  simp only [fetchRedditPostsFresh] at h
  split at h
  · split at h
    · exact (Prod.mk.injEq _ _ _ _ ▸ h).2.symm ▸ rfl
    · cases h
  · cases h

/-- Claim C10: if `fetch_reddit_posts` raises (which only happens when all
merged windows produced zero posts and at least one window failed), the post
cache is left exactly as it was: no entry is added or modified for the
subreddit, so a later call performs a fresh fetch again. -/
theorem fetchRedditPosts_error_leaves_cache (rank : Post → ℚ)
    (windows : List (Except String (List Post))) (cache c' : PostCache)
    (now : Int) (subreddit : String) (limit : Int) (e : String)
    (h : fetchRedditPosts rank windows cache now subreddit limit =
      (.error e, c')) : c' = cache := by
  simp only [fetchRedditPosts] at h
  split at h
  · cases h
  · split at h
    · split at h
      · cases h
      · exact fetchRedditPostsFresh_error_cache rank windows cache c' now _ limit e h
    · exact fetchRedditPostsFresh_error_cache rank windows cache c' now _ limit e h

/-- Witness for C10: three failed windows on an empty cache raise and leave
the cache empty. -/
theorem fetchRedditPosts_error_leaves_cache_witness :
    fetchRedditPosts (fun _ => 0)
        [Except.error "boom", Except.error "x", Except.error "y"] [] 0 "game" 100 =
      (Except.error "y", []) ∧ ([] : PostCache) = [] := by
  refine ⟨by decide, ?_⟩
  exact fetchRedditPosts_error_leaves_cache (fun _ => 0)
    [Except.error "boom", Except.error "x", Except.error "y"] [] [] 0 "game" 100 "y"
    (by decide)

/-! ## Claim C2 -/

/-- Dict assignment never shrinks the merged map. -/
theorem acSetPost_length_le (m : List (String × Post)) (k : String) (v : Post) :
    m.length ≤ (acSetPost m k v).length := by
  induction m with
  | nil => simp [acSetPost]
  | cons hd tl ih =>
    obtain ⟨k', v'⟩ := hd
    simp only [acSetPost]
    split
    · simp
    · simpa using ih

/-- Merging a window's posts never shrinks the merged map. -/
theorem mergeFold_length_le (posts : List Post) (m : List (String × Post)) :
    m.length ≤ (posts.foldl (fun m p => acSetPost m p.id p) m).length := by
  induction posts generalizing m with
  | nil => simp
  | cons p rest ih =>
    simp only [List.foldl_cons]
    exact le_trans (acSetPost_length_le m p.id p) (ih _)

/-- The window loop never shrinks the merged map. -/
theorem windowMergeLoop_length_le (t : Nat)
    (ws : List (Except String (List Post))) (m : List (String × Post))
    (le : Option String) : m.length ≤ (windowMergeLoop t ws m le).1.length := by
  induction ws generalizing m le with
  | nil => simp [windowMergeLoop]
  | cons w rest ih =>
    cases w with
    | error e => simpa [windowMergeLoop] using ih m (some e)
    | ok posts =>
      simp only [windowMergeLoop]
      split
      · exact mergeFold_length_le posts m
      · exact le_trans (mergeFold_length_le posts m) (ih _ le)

/-- Error accounting for the window loop: when the merged map comes out
empty, the recorded error is `some` exactly when the loop started with one
or some window failed. -/
theorem windowMergeLoop_error_acct (t : Nat)
    (ws : List (Except String (List Post))) (m : List (String × Post))
    (le : Option String) (ht : 1 ≤ t)
    (h : (windowMergeLoop t ws m le).1 = []) :
    ((∃ e, (windowMergeLoop t ws m le).2 = some e) ↔
      ((∃ e, le = some e) ∨ ∃ w ∈ ws, ∃ e, w = Except.error e)) := by
  induction ws generalizing m le with
  | nil =>
    simp only [windowMergeLoop, List.not_mem_nil]
    constructor
    · intro he; exact Or.inl he
    · rintro (he | ⟨w, hw, _⟩)
      · exact he
      · cases hw
  | cons w rest ih =>
    cases w with
    | error e =>
      simp only [windowMergeLoop] at h ⊢
      rw [ih m (some e) h]
      constructor
      · intro _; right; exact ⟨Except.error e, by simp, e, rfl⟩
      · intro _; left; exact ⟨e, rfl⟩
    | ok posts =>
      simp only [windowMergeLoop] at h ⊢
      by_cases hbreak :
          t * 2 ≤ (List.foldl (fun m p => acSetPost m p.id p) m posts).length
      · rw [if_pos hbreak] at h ⊢
        simp only [] at h
        rw [h] at hbreak
        simp at hbreak
        omega
      · rw [if_neg hbreak] at h ⊢
        rw [ih _ le h]
        constructor
        · rintro (he | ⟨w, hw, e, hwe⟩)
          · exact Or.inl he
          · exact Or.inr ⟨w, by simp [hw], e, hwe⟩
        · rintro (he | ⟨w, hw, e, hwe⟩)
          · exact Or.inl he
          · rcases List.mem_cons.mp hw with h1 | h2
            · rw [h1] at hwe; cases hwe
            · exact Or.inr ⟨w, h2, e, hwe⟩

/-- The effective target limit is at least 1. -/
theorem targetLimit_pos (limit : Int) : 1 ≤ (min (max limit 1) 100).toNat := by
  omega

/-- Claim C2 (amended): on a normalized nonempty subreddit with no fresh
cache entry, window failures are recorded while the remaining windows are
still queried, and `fetch_reddit_posts` raises **iff** the merged candidate
map is empty and at least one window failed — in particular it also raises
when some window succeeded with zero posts while another failed (the
deviation from the claim as frozen), and in every outcome with at least one
merged post or no failed window it returns a list without raising. -/
theorem fetchRedditPosts_error_iff (rank : Post → ℚ)
    (windows : List (Except String (List Post))) (cache : PostCache)
    (now : Int) (subreddit : String) (limit : Int)
    (hmiss : ∀ ts v, cacheGet cache (normalizeSubreddit subreddit) = some (ts, v) →
      CACHE_TTL ≤ now - ts)
    (hsub : normalizeSubreddit subreddit ≠ "") :
    (∃ e, (fetchRedditPosts rank windows cache now subreddit limit).1 =
        Except.error e) ↔
      ((windowMergeLoop (min (max limit 1) 100).toNat windows [] none).1 = [] ∧
        ∃ w ∈ windows, ∃ e, w = Except.error e) := by
  have hfresh :
      (fetchRedditPosts rank windows cache now subreddit limit).1 =
        (fetchRedditPostsFresh rank windows cache now
          (normalizeSubreddit subreddit) limit).1 := by
    simp only [fetchRedditPosts]
    rw [if_neg hsub]
    cases hc : cacheGet cache (normalizeSubreddit subreddit) with
    | none => rfl
    | some tsv =>
      obtain ⟨ts, v⟩ := tsv
      have h2 := hmiss ts v hc
      simp only []
      rw [if_neg (not_lt.mpr h2)]
  rw [hfresh]
  simp only [fetchRedditPostsFresh]
  split
  · rename_i hempty
    cases hlast : (windowMergeLoop (min (max limit 1) 100).toNat windows [] none).2 with
    | some e =>
      simp only [hlast]
      constructor
      · intro _
        refine ⟨hempty, ?_⟩
        have := (windowMergeLoop_error_acct _ windows [] none
          (targetLimit_pos limit) hempty).mp ⟨e, hlast⟩
        rcases this with ⟨e', he'⟩ | herr
        · cases he'
        · exact herr
      · intro _; exact ⟨e, rfl⟩
    | none =>
      simp only [hlast]
      constructor
      · rintro ⟨e, he⟩; cases he
      · rintro ⟨-, herr⟩
        have := (windowMergeLoop_error_acct _ windows [] none
          (targetLimit_pos limit) hempty).mpr (Or.inr herr)
        rcases this with ⟨e, he⟩
        rw [hlast] at he; cases he
  · rename_i hne
    constructor
    · rintro ⟨e, he⟩; cases he
    · rintro ⟨hempty, -⟩; exact absurd hempty hne

/-- Witness for the amended C2: with all three windows failing on an empty
cache, the call raises; the iff instance is discharged at that input. -/
theorem fetchRedditPosts_error_iff_witness :
    (∃ e, (fetchRedditPosts (fun _ => 0)
        [Except.error "a", Except.error "b", Except.error "c"] [] 0 "game" 100).1 =
          Except.error e) ↔
      ((windowMergeLoop (min (max (100 : Int) 1) 100).toNat
          [Except.error "a", Except.error "b", Except.error "c"] [] none).1 = [] ∧
        ∃ w ∈ [Except.error "a", Except.error "b", Except.error "c"],
          ∃ e, w = Except.error (α := List Post) e) :=
  fetchRedditPosts_error_iff (fun _ => 0)
    [Except.error "a", Except.error "b", Except.error "c"] [] 0 "game" 100
    (fun ts v h => by cases h) (by decide)

/-- Counterexample to C2 as frozen: the first window succeeds (with zero
posts) while the later windows fail, so *not all* windows failed — yet the
call raises instead of returning a list. -/
theorem fetchRedditPosts_error_counterexample :
    (fetchRedditPosts (fun _ => 0)
        [Except.ok [], Except.error "boom", Except.error "x"] [] 0 "game" 10).1 =
      Except.error "x" ∧
    Except.ok ([] : List Post) ∈
      [Except.ok ([] : List Post), Except.error "boom", Except.error "x"] :=
  ⟨by decide, by simp⟩

/-! ## Claim C8 -/

/-- Claim C8: no cache serves a stored value at or past its category TTL
(post/comment 10 min, discovery 24 h, multi-scan and per-subreddit breakdown
10 min): an expired entry is treated exactly like a missing one — the call's
outcome equals the outcome with the entry erased, i.e. a fresh fetch. -/
theorem caches_never_serve_expired :
    (∀ (rank : Post → ℚ) (windows : List (Except String (List Post)))
        (cache : PostCache) (now : Int) (subreddit : String) (limit : Int)
        (ts : Int) (v : List Post),
        cacheGet cache (normalizeSubreddit subreddit) = some (ts, v) →
        CACHE_TTL ≤ now - ts →
        (fetchRedditPosts rank windows cache now subreddit limit).1 =
          (fetchRedditPosts rank windows
            (cacheErase cache (normalizeSubreddit subreddit)) now subreddit
            limit).1) ∧
    (∀ (resp : CommentsResp) (cache : CommentCache) (now : Int)
        (postId : String) (limit : Int) (ts : Int) (v : List Comment),
        cacheGet cache postId = some (ts, v) →
        CACHE_TTL ≤ now - ts →
        (fetchCommentsForPost resp cache now postId limit).1 =
          (fetchCommentsForPost resp (cacheErase cache postId) now postId
            limit).1) ∧
    (∀ (β : Type) (o : ScanOracles β) (rank : Post → ℚ) (emptyB : β)
        (cache : ScanCache β) (now : Int) (nowStr : String)
        (subreddits : List String) (gameName keywords : String)
        (includeBreakdown : Bool) (ts : Int) (res : ScanResult β),
        cacheGet cache
            (buildMultiScanCacheKey
              (normalizeSubredditList subreddits MAX_MULTI_SUBREDDITS) gameName
              keywords includeBreakdown) = some (ts, res) →
        MULTI_SCAN_CACHE_TTL ≤ now - ts →
        (scanMultipleSubreddits o rank emptyB cache now nowStr subreddits
            gameName keywords includeBreakdown).1 =
          (scanMultipleSubreddits o rank emptyB
              (cacheErase cache
                (buildMultiScanCacheKey
                  (normalizeSubredditList subreddits MAX_MULTI_SUBREDDITS)
                  gameName keywords includeBreakdown)) now nowStr subreddits
              gameName keywords includeBreakdown).1) ∧
    (∀ (α : Type) (cache : List (String × (Int × List α))) (now : Int)
        (lookupKey : String) (safeMax : Nat) (fresh : List α) (ts : Int)
        (rows : List α),
        cacheGet cache lookupKey = some (ts, rows) →
        DISCOVERY_CACHE_TTL ≤ now - ts →
        discoveryCacheStep cache now lookupKey safeMax fresh = fresh) ∧
    (∀ (α : Type) (cache : List (String × (Int × α))) (now : Int)
        (cacheKey : String) (fresh : α) (ts : Int) (row : α),
        cacheGet cache cacheKey = some (ts, row) →
        MULTI_SCAN_CACHE_TTL ≤ now - ts →
        breakdownCacheStep cache now cacheKey fresh = fresh) := by
  refine ⟨?_, ?_, ?_, ?_, ?_⟩
  · intro rank windows cache now subreddit limit ts v hget hex
    simp only [fetchRedditPosts]
    by_cases hsub : normalizeSubreddit subreddit = ""
    · rw [if_pos hsub, if_pos hsub]
    · rw [if_neg hsub, if_neg hsub, hget,
        cacheGet_cacheErase cache (normalizeSubreddit subreddit)]
      simp only []
      rw [if_neg (not_lt.mpr hex)]
      exact fetchRedditPostsFresh_fst_indep rank windows cache _ now _ limit
  · intro resp cache now postId limit ts v hget hex
    simp only [fetchCommentsForPost]
    by_cases hpid : postId = ""
    · rw [if_pos hpid, if_pos hpid]
    · rw [if_neg hpid, if_neg hpid, hget, cacheGet_cacheErase cache postId]
      simp only []
      rw [if_neg (not_lt.mpr hex)]
      exact fetchCommentsFresh_fst_indep resp cache _ now postId limit
  · intro β o rank emptyB cache now nowStr subreddits gameName keywords
      includeBreakdown ts res hget hex
    simp only [scanMultipleSubreddits]
    by_cases hsub : normalizeSubredditList subreddits MAX_MULTI_SUBREDDITS = []
    · rw [if_pos hsub, if_pos hsub]
    · rw [if_neg hsub, if_neg hsub, hget, cacheGet_cacheErase cache _]
      simp only []
      rw [if_neg (not_lt.mpr hex)]
      exact scanFresh_fst_indep o rank emptyB cache _ now nowStr _ _ includeBreakdown
  · intro α cache now lookupKey safeMax fresh ts rows hget hex
    simp only [discoveryCacheStep, hget]
    rw [if_neg (not_lt.mpr hex)]
  · intro α cache now cacheKey fresh ts row hget hex
    simp only [breakdownCacheStep, hget]
    rw [if_neg (not_lt.mpr hex)]

/-- A concrete oracle set for exercising the multi-scan cache guard. -/
def demoScanOracles : ScanOracles Nat :=
  { fetchPosts := fun _ => [defaultPost]
    sampleComments := fun _ => .ok []
    analyzeOverall := fun _ _ => emptyDataFallback
    breakdownFn := fun _ => 0 }

/-- The cache key of the demo multi-scan call. -/
def demoScanKey : String :=
  buildMultiScanCacheKey (normalizeSubredditList ["game"] MAX_MULTI_SUBREDDITS)
    "" "" true

/-- A concrete cached multi-scan result. -/
def demoScanResult : ScanResult Nat :=
  { overall := emptyDataFallback
    meta := { subreddits := ["game"], postsAnalysed := 1, commentsSampled := 0,
              lastScanned := "t" }
    subredditBreakdown := 0
    internalPosts := [defaultPost]
    internalComments := [] }

/-- Witness for C8: each cache with a single expired entry (age exactly its
TTL) behaves like the erased cache / takes the fresh path. -/
theorem caches_never_serve_expired_witness :
    ((fetchRedditPosts (fun _ => 0) [Except.ok []]
        [("game", (0, [defaultPost]))] 600 "game" 10).1 =
      (fetchRedditPosts (fun _ => 0) [Except.ok []]
        (cacheErase [("game", (0, [defaultPost]))] (normalizeSubreddit "game"))
        600 "game" 10).1) ∧
    ((fetchCommentsForPost .notFound [("p1", (0, []))] 600 "p1" 10).1 =
      (fetchCommentsForPost .notFound (cacheErase [("p1", (0, []))] "p1")
        600 "p1" 10).1) ∧
    ((scanMultipleSubreddits demoScanOracles (fun _ => 0) 0
        [(demoScanKey, (0, demoScanResult))] 600 "t" ["game"] "" "" true).1 =
      (scanMultipleSubreddits demoScanOracles (fun _ => 0) 0
        (cacheErase [(demoScanKey, (0, demoScanResult))] demoScanKey) 600 "t"
        ["game"] "" "" true).1) ∧
    (discoveryCacheStep [("k", (0, [1, 2]))] 86400 "k" 5 [3] = [3]) ∧
    (breakdownCacheStep [("k", (0, 7))] 600 "k" 9 = 9) := by
  refine ⟨?_, ?_, ?_, ?_, ?_⟩
  · exact caches_never_serve_expired.1 (fun _ => 0) [Except.ok []]
      [("game", (0, [defaultPost]))] 600 "game" 10 0 [defaultPost] (by decide)
      (by decide)
  · exact caches_never_serve_expired.2.1 .notFound [("p1", (0, []))] 600 "p1"
      10 0 [] (by decide) (by decide)
  · exact caches_never_serve_expired.2.2.1 Nat demoScanOracles (fun _ => 0) 0
      [(demoScanKey, (0, demoScanResult))] 600 "t" ["game"] "" "" true 0
      demoScanResult (by rw [show buildMultiScanCacheKey
        (normalizeSubredditList ["game"] MAX_MULTI_SUBREDDITS) "" "" true =
        demoScanKey from rfl]; simp [cacheGet]) (by decide)
  · exact caches_never_serve_expired.2.2.2.1 Nat [("k", (0, [1, 2]))] 86400 "k"
      5 [3] 0 [1, 2] (by decide) (by decide)
  · exact caches_never_serve_expired.2.2.2.2 Nat [("k", (0, 7))] 600 "k" 9 0 7
      (by decide) (by decide)

/-! ## Claim C5 -/

/-- The primary pass never removes selected posts. -/
theorem primaryPass_selected_len_mono (now : Int) (maxPosts : Nat)
    (l : List Post) (st : PrimSt) :
    st.selected.length ≤ (primaryPass now maxPosts l st).selected.length := by
  induction l generalizing st with
  | nil => simp [primaryPass]
  | cons p rest ih =>
    simp only [primaryPass]
    split
    · exact le_refl _
    · split
      · exact ih ⟨st.selected, st.authorCount, st.zeroCount,
          if isRecent now p = true then st.deferredRecent ++ [p]
          else st.deferredRecent, st.recentCount⟩
      · split
        · exact ih ⟨st.selected, st.authorCount, st.zeroCount,
            if isRecent now p = true then st.deferredRecent ++ [p]
            else st.deferredRecent, st.recentCount⟩
        · refine le_trans ?_ (ih ⟨st.selected ++ [p],
            acIncNat st.authorCount (effAuthor p),
            if p.numComments = 0 then st.zeroCount + 1 else st.zeroCount,
            st.deferredRecent,
            if isRecent now p = true then st.recentCount + 1
            else st.recentCount⟩)
          simp

/-- Selecting from a nonempty rank-sorted pool selects at least one post. -/
theorem primaryPass_len_ge_one (now : Int) (maxPosts : Nat) (q : Post)
    (qs : List Post) (hmax : 1 ≤ maxPosts) :
    1 ≤ (primaryPass now maxPosts (q :: qs) ⟨[], [], 0, [], 0⟩).selected.length := by
  simp only [primaryPass]
  rw [if_neg (by simp; omega)]
  rw [if_neg (by simp [acGetNat])]
  rw [if_neg (by simp)]
  refine le_trans ?_ (primaryPass_selected_len_mono now maxPosts qs _)
  simp

/-- The backfill loop never shrinks the selection. -/
theorem backfillLoop_sel_len_mono (now : Int) (maxPosts recentTarget : Nat)
    (defs : List Post) (sel : List Post) (rc : Nat) :
    sel.length ≤ (backfillLoop now maxPosts recentTarget defs sel rc).1.length := by
  induction defs generalizing sel rc with
  | nil => simp [backfillLoop]
  | cons p rest ih =>
    simp only [backfillLoop]
    split
    · exact le_refl _
    · split
      · exact le_trans (by simp) (ih _ _)
      · split
        · rename_i i hi
          calc sel.length = (sel.set i p).length := by rw [List.length_set]
            _ ≤ _ := ih _ _
        · exact ih _ _

/-- A nonempty candidate pool and a positive target always yield a nonempty
selection. -/
theorem applyDiversityAndRecency_ne_nil (rank : Post → ℚ) (now : Int)
    (posts : List Post) (maxPosts : Nat) (hne : posts ≠ [])
    (hmax : 1 ≤ maxPosts) :
    applyDiversityAndRecency rank now posts maxPosts ≠ [] := by
  have hsorted : sortByRankDesc rank posts ≠ [] := by
    intro h
    have hperm := List.perm_insertionSort (fun a b => rank b ≤ rank a) posts
    rw [sortByRankDesc] at h
    rw [h] at hperm
    exact hne (List.Perm.eq_nil hperm.symm)
  set st := primaryPass now maxPosts (sortByRankDesc rank posts)
    ⟨[], [], 0, [], 0⟩ with hstdef
  have hcases : applyDiversityAndRecency rank now posts maxPosts =
      (if (decide (st.recentCount < min 20 maxPosts) &&
            !st.deferredRecent.isEmpty) = true then
          backfillLoop now maxPosts (min 20 maxPosts)
            (sortByCreatedDesc st.deferredRecent) st.selected st.recentCount
        else (st.selected, st.recentCount, [])).1.take maxPosts := by
    unfold applyDiversityAndRecency diversityInternal
    rw [if_neg hne]
  have hsel1 : 1 ≤ st.selected.length := by
    obtain ⟨q, qs, hq⟩ := List.exists_cons_of_ne_nil hsorted
    rw [hstdef, hq]
    exact primaryPass_len_ge_one now maxPosts q qs hmax
  rw [hcases]
  intro hcontra
  split at hcontra
  · have hmono := backfillLoop_sel_len_mono now maxPosts (min 20 maxPosts)
      (sortByCreatedDesc st.deferredRecent) st.selected st.recentCount
    have hlen := congrArg List.length hcontra
    simp only [List.length_take, List.length_nil] at hlen
    omega
  · have hlen := congrArg List.length hcontra
    simp only [List.length_take, List.length_nil] at hlen
    omega

/-- Claim C5: the quality filter drops a post exactly when it simultaneously
has zero comments, score at most 1, a selftext shorter than 80 characters
(or empty) and a title shorter than 25 characters; when filtering would
remove every candidate the unfiltered candidates are used instead; and on
the fresh-fetch path, whenever any candidates were merged at all, the
returned list is nonempty — over-filtering never produces an empty result. -/
theorem qualityFilter_drop_iff_and_never_empty :
    (∀ (posts : List Post) (p : Post), p ∈ posts →
      (p ∉ applyQualityFilter posts ↔
        (p.numComments = 0 ∧ p.score ≤ 1 ∧
          (p.selftext.length = 0 ∨ p.selftext.length < 80) ∧
          p.title.length < 25))) ∧
    (∀ (candidates : List Post), candidates ≠ [] →
      (if applyQualityFilter candidates = [] then candidates
        else applyQualityFilter candidates) ≠ []) ∧
    (∀ (rank : Post → ℚ) (windows : List (Except String (List Post)))
        (cache : PostCache) (now : Int) (normalized : String) (limit : Int),
      (windowMergeLoop (min (max limit 1) 100).toNat windows [] none).1 ≠ [] →
      ∃ l, (fetchRedditPostsFresh rank windows cache now normalized limit).1 =
          Except.ok l ∧ l ≠ []) := by
  refine ⟨?_, ?_, ?_⟩
  · intro posts p hp
    have hiff : isLowQuality p = true ↔
        (p.numComments = 0 ∧ p.score ≤ 1 ∧
          (p.selftext.length = 0 ∨ p.selftext.length < 80) ∧
          p.title.length < 25) := by
      simp only [isLowQuality, Bool.and_eq_true, Bool.or_eq_true,
        decide_eq_true_eq]
      tauto
    have hmem_iff : p ∈ applyQualityFilter posts ↔
        p ∈ posts ∧ isLowQuality p = false := by
      rw [applyQualityFilter, List.mem_filter]
      simp [Bool.not_eq_true']
    constructor
    · intro h
      rw [← hiff]
      cases hb : isLowQuality p
      · exact absurd (hmem_iff.mpr ⟨hp, hb⟩) h
      · rfl
    · intro h hmem
      have h2 := (hmem_iff.mp hmem).2
      rw [hiff.mpr h] at h2
      cases h2
  · intro candidates hne
    split
    · exact hne
    · assumption
  · intro rank windows cache now normalized limit hmerged
    simp only [fetchRedditPostsFresh]
    rw [if_neg hmerged]
    refine ⟨_, rfl, ?_⟩
    have hcand : (windowMergeLoop (min (max limit 1) 100).toNat windows []
        none).1.map (·.2) ≠ [] := by
      intro h
      exact hmerged (List.map_eq_nil_iff.mp h)
    apply applyDiversityAndRecency_ne_nil
    · split
      · exact hcand
      · assumption
    · exact targetLimit_pos limit

/-- Witness for C5: a post low on every axis is dropped by the filter; a pool
of only such posts skips filtering; and a fresh fetch that merged one such
post still returns it. -/
theorem qualityFilter_drop_iff_witness :
    (defaultPost ∉ applyQualityFilter [defaultPost] ↔
      (defaultPost.numComments = 0 ∧ defaultPost.score ≤ 1 ∧
        (defaultPost.selftext.length = 0 ∨ defaultPost.selftext.length < 80) ∧
        defaultPost.title.length < 25)) ∧
    ((if applyQualityFilter [defaultPost] = [] then [defaultPost]
      else applyQualityFilter [defaultPost]) ≠ []) ∧
    (∃ l, (fetchRedditPostsFresh (fun _ => 0) [Except.ok [defaultPost]] [] 0
        "game" 10).1 = Except.ok l ∧ l ≠ []) :=
  ⟨qualityFilter_drop_iff_and_never_empty.1 [defaultPost] defaultPost
      (List.mem_singleton.mpr rfl),
    qualityFilter_drop_iff_and_never_empty.2.1 [defaultPost]
      (List.cons_ne_nil _ _),
    qualityFilter_drop_iff_and_never_empty.2.2 (fun _ => 0)
      [Except.ok [defaultPost]] [] 0 "game" 10 (by decide)⟩

/-! ## Claim C3 -/
theorem countAuthor_cons (a : String) (x : Post) (l : List Post) :
    countAuthor a (x :: l) =
      (if effAuthor x = a then 1 else 0) + countAuthor a l := by
  simp only [countAuthor, List.filter_cons]
  by_cases h : effAuthor x = a
  · simp [h, Nat.add_comm]
  · simp [h]

theorem countAuthor_append (a : String) (l₁ l₂ : List Post) :
    countAuthor a (l₁ ++ l₂) = countAuthor a l₁ + countAuthor a l₂ := by
  simp [countAuthor, List.filter_append]

theorem countAuthor_sublist (a : String) {l₁ l₂ : List Post}
    (h : l₁.Sublist l₂) : countAuthor a l₁ ≤ countAuthor a l₂ :=
  (h.filter _).length_le

theorem countAuthor_set_le (a : String) (l : List Post) (i : Nat) (p : Post) :
    countAuthor a (l.set i p) ≤
      countAuthor a l + (if effAuthor p = a then 1 else 0) := by
  induction l generalizing i with
  | nil => simp [countAuthor]
  | cons x xs ih =>
    cases i with
    | zero =>
      simp only [List.set]
      rw [countAuthor_cons, countAuthor_cons]
      split <;> split <;> omega
    | succ n =>
      simp only [List.set]
      rw [countAuthor_cons, countAuthor_cons]
      have := ih n
      omega

theorem acGetNat_acIncNat_self (m : List (String × Nat)) (k : String) :
    acGetNat (acIncNat m k) k = acGetNat m k + 1 := by
  induction m with
  | nil => simp [acIncNat, acGetNat]
  | cons hd tl ih =>
    obtain ⟨k', v⟩ := hd
    simp only [acIncNat, acGetNat]
    by_cases h : k' = k
    · simp [h, acGetNat]
    · simp [h, acGetNat, ih]

theorem acGetNat_acIncNat_ne (m : List (String × Nat)) (k a : String)
    (h : a ≠ k) : acGetNat (acIncNat m k) a = acGetNat m a := by
  induction m with
  | nil => simp [acIncNat, acGetNat, Ne.symm h]
  | cons hd tl ih =>
    obtain ⟨k', v⟩ := hd
    simp only [acIncNat, acGetNat]
    by_cases hk : k' = k
    · subst hk
      simp [acGetNat, Ne.symm h]
    · simp only [hk, if_false]
      by_cases ha : k' = a <;> simp [acGetNat, ha, ih]

theorem primaryPass_author_inv (now : Int) (maxPosts : Nat) (l : List Post)
    (st : PrimSt) (a : String)
    (h1 : countAuthor a st.selected = acGetNat st.authorCount a)
    (h2 : acGetNat st.authorCount a ≤ 3) :
    countAuthor a (primaryPass now maxPosts l st).selected =
        acGetNat (primaryPass now maxPosts l st).authorCount a ∧
      acGetNat (primaryPass now maxPosts l st).authorCount a ≤ 3 := by
  induction l generalizing st with
  | nil => exact ⟨h1, h2⟩
  | cons p rest ih =>
    simp only [primaryPass]
    split
    · exact ⟨h1, h2⟩
    · split
      · exact ih ⟨st.selected, st.authorCount, st.zeroCount,
          if isRecent now p = true then st.deferredRecent ++ [p]
          else st.deferredRecent, st.recentCount⟩ h1 h2
      · split
        · exact ih ⟨st.selected, st.authorCount, st.zeroCount,
            if isRecent now p = true then st.deferredRecent ++ [p]
            else st.deferredRecent, st.recentCount⟩ h1 h2
        · rename_i hcap hzero
          refine ih ⟨st.selected ++ [p], acIncNat st.authorCount (effAuthor p),
            if p.numComments = 0 then st.zeroCount + 1 else st.zeroCount,
            st.deferredRecent,
            if isRecent now p = true then st.recentCount + 1
            else st.recentCount⟩ ?_ ?_
          · by_cases hea : effAuthor p = a
            · have hone : countAuthor a [p] = 1 := by simp [countAuthor, hea]
              rw [countAuthor_append, hea, acGetNat_acIncNat_self, h1, hone]
            · have hz : countAuthor a [p] = 0 := by simp [countAuthor, hea]
              rw [countAuthor_append,
                acGetNat_acIncNat_ne _ _ _ (fun hh => hea hh.symm), hz, h1,
                Nat.add_zero]
          · by_cases hea : effAuthor p = a
            · rw [← hea] at h2 ⊢
              rw [acGetNat_acIncNat_self]
              have hle : ¬ 3 ≤ acGetNat st.authorCount (effAuthor p) := by
                simpa using hcap
              omega
            · rw [acGetNat_acIncNat_ne _ _ _ (fun hh => hea hh.symm)]
              exact h2

theorem backfillLoop_countAuthor_le (now : Int) (maxPosts recentTarget : Nat)
    (defs sel : List Post) (rc : Nat) (a : String) :
    countAuthor a (backfillLoop now maxPosts recentTarget defs sel rc).1 ≤
      countAuthor a sel +
        countAuthor a (backfillLoop now maxPosts recentTarget defs sel rc).2.2 := by
  induction defs generalizing sel rc with
  | nil => simp [backfillLoop]
  | cons p rest ih =>
    simp only [backfillLoop]
    split
    · simp [countAuthor]
    · split
      · dsimp only
        have := ih (sel ++ [p]) (rc + 1)
        rw [countAuthor_append] at this
        rw [countAuthor_cons]
        have hone : countAuthor a [p] = (if effAuthor p = a then 1 else 0) := by
          by_cases hea : effAuthor p = a <;> simp [countAuthor, hea]
        omega
      · split
        · rename_i i hi
          dsimp only
          have := ih (sel.set i p) (rc + 1)
          have hset := countAuthor_set_le a sel i p
          rw [countAuthor_cons]
          omega
        · have := ih sel rc
          omega

theorem fetchRedditPosts_miss (rank : Post → ℚ)
    (windows : List (Except String (List Post))) (cache : PostCache)
    (now : Int) (subreddit : String) (limit : Int)
    (hmiss : ∀ ts v, cacheGet cache (normalizeSubreddit subreddit) = some (ts, v) →
      CACHE_TTL ≤ now - ts)
    (hsub : normalizeSubreddit subreddit ≠ "") :
    fetchRedditPosts rank windows cache now subreddit limit =
      fetchRedditPostsFresh rank windows cache now
        (normalizeSubreddit subreddit) limit := by
  simp only [fetchRedditPosts]
  rw [if_neg hsub]
  cases hc : cacheGet cache (normalizeSubreddit subreddit) with
  | none => rfl
  | some tsv =>
    obtain ⟨ts, v⟩ := tsv
    have h2 := hmiss ts v hc
    simp only []
    rw [if_neg (not_lt.mpr h2)]

theorem author_cap_unless_backfill (rank : Post → ℚ) (now : Int)
    (posts : List Post) (maxPosts : Nat) (a : String) :
    countAuthor a (applyDiversityAndRecency rank now posts maxPosts) ≤
      3 + countAuthor a (backfillInsertions rank now posts maxPosts) := by
  by_cases hne : posts = []
  · subst hne
    simp [applyDiversityAndRecency, backfillInsertions, diversityInternal,
      countAuthor]
  · set st := primaryPass now maxPosts (sortByRankDesc rank posts)
      ⟨[], [], 0, [], 0⟩ with hstdef
    have hd : diversityInternal rank now posts maxPosts =
        (if (decide (st.recentCount < min 20 maxPosts) &&
              !st.deferredRecent.isEmpty) = true then
            backfillLoop now maxPosts (min 20 maxPosts)
              (sortByCreatedDesc st.deferredRecent) st.selected st.recentCount
          else (st.selected, st.recentCount, [])) := by
      unfold diversityInternal
      rw [if_neg hne]
    have hinv := primaryPass_author_inv now maxPosts (sortByRankDesc rank posts)
      ⟨[], [], 0, [], 0⟩ a (by simp [countAuthor, acGetNat])
      (by simp [acGetNat])
    rw [← hstdef] at hinv
    have hsel3 : countAuthor a st.selected ≤ 3 := by omega
    rw [applyDiversityAndRecency, backfillInsertions, hd]
    split
    · have h1 := countAuthor_sublist a (List.take_sublist maxPosts
        (backfillLoop now maxPosts (min 20 maxPosts)
          (sortByCreatedDesc st.deferredRecent) st.selected st.recentCount).1)
      have h2 := backfillLoop_countAuthor_le now maxPosts (min 20 maxPosts)
        (sortByCreatedDesc st.deferredRecent) st.selected st.recentCount a
      omega
    · dsimp only
      have h1 := countAuthor_sublist a (List.take_sublist maxPosts st.selected)
      have hz : countAuthor a ([] : List Post) = 0 := by simp [countAuthor]
      omega

/-- Claim C3 (amended): on any call that does not hit a fresh cache entry,
`fetch_reddit_posts` returns at most `target_limit = min(max(limit,1),100)`
posts; and in the diversity/recency selection no (effective) author exceeds
3 posts except through posts the recency backfill inserted — the count for
any author is bounded by 3 plus the number of backfill-inserted posts by
that author.  (A cache hit returns the list cached by an earlier call
unchanged, which is why the original unrestricted claim fails.) -/
theorem fetchRedditPosts_size_and_author_cap :
    (∀ (rank : Post → ℚ) (windows : List (Except String (List Post)))
        (cache : PostCache) (now : Int) (subreddit : String) (limit : Int),
      (∀ ts v, cacheGet cache (normalizeSubreddit subreddit) = some (ts, v) →
        CACHE_TTL ≤ now - ts) →
      ∀ res c', fetchRedditPosts rank windows cache now subreddit limit =
          (Except.ok res, c') →
        res.length ≤ (min (max limit 1) 100).toNat) ∧
    (∀ (rank : Post → ℚ) (now : Int) (posts : List Post) (maxPosts : Nat)
        (a : String),
      countAuthor a (applyDiversityAndRecency rank now posts maxPosts) ≤
        3 + countAuthor a (backfillInsertions rank now posts maxPosts)) := by
  constructor
  · intro rank windows cache now subreddit limit hmiss res c' h
    by_cases hsub : normalizeSubreddit subreddit = ""
    · simp only [fetchRedditPosts, if_pos hsub] at h
      simp only [Prod.mk.injEq, Except.ok.injEq] at h
      rw [← h.1]
      simp
    · rw [fetchRedditPosts_miss rank windows cache now subreddit limit hmiss
        hsub] at h
      simp only [fetchRedditPostsFresh] at h
      split at h
      · split at h
        · simp at h
        · simp only [Prod.mk.injEq, Except.ok.injEq] at h
          rw [← h.1]
          simp
      · simp only [Prod.mk.injEq, Except.ok.injEq] at h
        rw [← h.1]
        exact List.length_take_le _ _
  · intro rank now posts maxPosts a
    exact author_cap_unless_backfill rank now posts maxPosts a

/-- Witness for the amended C3: a fresh one-post fetch returns one post
(within the target limit of 10), and the author-cap bound holds at a
concrete selection. -/
theorem fetchRedditPosts_size_and_author_cap_witness :
    ([defaultPost].length ≤ (min (max (10 : Int) 1) 100).toNat) ∧
    (countAuthor "A" (applyDiversityAndRecency (fun _ => 0) 0 [defaultPost] 5) ≤
      3 + countAuthor "A" (backfillInsertions (fun _ => 0) 0 [defaultPost] 5)) :=
  ⟨fetchRedditPosts_size_and_author_cap.1 (fun _ => 0)
      [Except.ok [defaultPost]] [] 0 "game" 10 (fun ts v hc => by cases hc)
      [defaultPost] [("game", (0, [defaultPost]))] (by decide),
    fetchRedditPosts_size_and_author_cap.2 (fun _ => 0) 0 [defaultPost] 5 "A"⟩

/-- Counterexample to C3 as frozen: with a fresh cache entry holding two
posts (stored by an earlier `limit=100` call), a call with `limit = 1`
(target limit 1) returns both posts, exceeding its target limit. -/
theorem fetchRedditPosts_limit_counterexample :
    (fetchRedditPosts (fun _ => 0) []
        [("game", (0, [defaultPost, defaultPost]))] 0 "game" 1).1 =
      Except.ok [defaultPost, defaultPost] ∧
    ¬ ([defaultPost, defaultPost].length ≤ (min (max (1 : Int) 1) 100).toNat) :=
  ⟨by decide, by decide⟩

/-! ## Claim C4 -/

theorem countRecent_cons (now : Int) (x : Post) (l : List Post) :
    countRecent now (x :: l) =
      (if isRecent now x = true then 1 else 0) + countRecent now l := by
  simp only [countRecent, List.filter_cons]
  split <;> simp [Nat.add_comm]

theorem countRecent_append (now : Int) (l₁ l₂ : List Post) :
    countRecent now (l₁ ++ l₂) = countRecent now l₁ + countRecent now l₂ := by
  simp [countRecent, List.filter_append]

theorem primaryPass_rc_inv (now : Int) (maxPosts : Nat) (l : List Post)
    (st : PrimSt) (h : st.recentCount = countRecent now st.selected) :
    (primaryPass now maxPosts l st).recentCount =
      countRecent now (primaryPass now maxPosts l st).selected := by
  induction l generalizing st with
  | nil => exact h
  | cons p rest ih =>
    simp only [primaryPass]
    split
    · exact h
    · split
      · exact ih ⟨st.selected, st.authorCount, st.zeroCount,
          if isRecent now p = true then st.deferredRecent ++ [p]
          else st.deferredRecent, st.recentCount⟩ h
      · split
        · exact ih ⟨st.selected, st.authorCount, st.zeroCount,
            if isRecent now p = true then st.deferredRecent ++ [p]
            else st.deferredRecent, st.recentCount⟩ h
        · refine ih ⟨st.selected ++ [p], acIncNat st.authorCount (effAuthor p),
            if p.numComments = 0 then st.zeroCount + 1 else st.zeroCount,
            st.deferredRecent,
            if isRecent now p = true then st.recentCount + 1
            else st.recentCount⟩ ?_
          rw [countRecent_append, h]
          by_cases hr : isRecent now p = true
          · simp [hr, countRecent]
          · simp [countRecent, hr]

theorem primaryPass_cover (now : Int) (maxPosts : Nat) (l : List Post)
    (st : PrimSt) (hlen : l.length + st.selected.length ≤ maxPosts) :
    st.recentCount + st.deferredRecent.length + countRecent now l ≤
      (primaryPass now maxPosts l st).recentCount +
        (primaryPass now maxPosts l st).deferredRecent.length := by
  induction l generalizing st with
  | nil => simp [primaryPass, countRecent]
  | cons p rest ih =>
    simp only [primaryPass]
    rw [if_neg (by simp at hlen ⊢; omega)]
    split
    · have h2 := ih ⟨st.selected, st.authorCount, st.zeroCount,
        if isRecent now p = true then st.deferredRecent ++ [p]
        else st.deferredRecent, st.recentCount⟩ (by simp at hlen ⊢; omega)
      rw [countRecent_cons]
      cases hr : isRecent now p
      · simp [hr] at h2 ⊢
        omega
      · simp [hr] at h2 ⊢
        omega
    · split
      · have h2 := ih ⟨st.selected, st.authorCount, st.zeroCount,
          if isRecent now p = true then st.deferredRecent ++ [p]
          else st.deferredRecent, st.recentCount⟩ (by simp at hlen ⊢; omega)
        rw [countRecent_cons]
        cases hr : isRecent now p
        · simp [hr] at h2 ⊢
          omega
        · simp [hr] at h2 ⊢
          omega
      · have h2 := ih ⟨st.selected ++ [p], acIncNat st.authorCount (effAuthor p),
          if p.numComments = 0 then st.zeroCount + 1 else st.zeroCount,
          st.deferredRecent,
          if isRecent now p = true then st.recentCount + 1
          else st.recentCount⟩ (by simp at hlen ⊢; omega)
        rw [countRecent_cons]
        cases hr : isRecent now p
        · simp [hr] at h2 ⊢
          omega
        · simp [hr] at h2 ⊢
          omega

theorem primaryPass_deferred_recent (now : Int) (maxPosts : Nat)
    (l : List Post) (st : PrimSt)
    (h : ∀ p ∈ st.deferredRecent, isRecent now p = true) :
    ∀ p ∈ (primaryPass now maxPosts l st).deferredRecent,
      isRecent now p = true := by
  induction l generalizing st with
  | nil => exact h
  | cons p rest ih =>
    simp only [primaryPass]
    split
    · exact h
    · split
      · refine ih ⟨st.selected, st.authorCount, st.zeroCount,
          if isRecent now p = true then st.deferredRecent ++ [p]
          else st.deferredRecent, st.recentCount⟩ ?_
        cases hr : isRecent now p
        · simpa [hr] using h
        · simp only [hr, if_true]
          intro q hq
          rcases List.mem_append.mp hq with hq1 | hq2
          · exact h q hq1
          · rw [List.mem_singleton.mp hq2]
            exact hr
      · split
        · refine ih ⟨st.selected, st.authorCount, st.zeroCount,
            if isRecent now p = true then st.deferredRecent ++ [p]
            else st.deferredRecent, st.recentCount⟩ ?_
          cases hr : isRecent now p
          · simpa [hr] using h
          · simp only [hr, if_true]
            intro q hq
            rcases List.mem_append.mp hq with hq1 | hq2
            · exact h q hq1
            · rw [List.mem_singleton.mp hq2]
              exact hr
        · exact ih ⟨st.selected ++ [p], acIncNat st.authorCount (effAuthor p),
            if p.numComments = 0 then st.zeroCount + 1 else st.zeroCount,
            st.deferredRecent,
            if isRecent now p = true then st.recentCount + 1
            else st.recentCount⟩ h

theorem lastIdxWhere_some {α : Type} (p : α → Bool) (l : List α) (i : Nat)
    (h : lastIdxWhere p l = some i) :
    i < l.length ∧ ∀ d, p (l.getD i d) = true := by
  induction l generalizing i with
  | nil => cases h
  | cons x xs ih =>
    simp only [lastIdxWhere] at h
    split at h
    · rename_i j hrec
      cases h
      have h2 := ih j hrec
      constructor
      · simp
        omega
      · intro d
        simpa using h2.2 d
    · rename_i hrec
      split at h
      · rename_i hpx
        cases h
        refine ⟨by simp, fun d => ?_⟩
        simpa using hpx
      · cases h

theorem lastIdxWhere_none {α : Type} (p : α → Bool) (l : List α)
    (h : lastIdxWhere p l = none) : ∀ x ∈ l, p x = false := by
  induction l with
  | nil => intro x hx; cases hx
  | cons x xs ih =>
    simp only [lastIdxWhere] at h
    split at h
    · cases h
    · rename_i hrec
      split at h
      · cases h
      · rename_i hpx
        intro y hy
        rcases List.mem_cons.mp hy with h1 | h2
        · subst h1
          simpa using hpx
        · exact ih hrec y h2

theorem countRecent_set_succ (now : Int) (l : List Post) (i : Nat) (p : Post)
    (hi : i < l.length) (hold : ∀ d, isRecent now (l.getD i d) = false)
    (hp : isRecent now p = true) :
    countRecent now (l.set i p) = countRecent now l + 1 := by
  induction l generalizing i with
  | nil => simp at hi
  | cons x xs ih =>
    cases i with
    | zero =>
      simp only [List.set]
      rw [countRecent_cons, countRecent_cons, hp]
      have hx := hold p
      simp only [List.getD_cons_zero] at hx
      rw [hx]
      simp [Nat.add_comm]
    | succ n =>
      simp only [List.set]
      rw [countRecent_cons, countRecent_cons]
      have hrec := ih n (by simpa using hi) (fun d => by simpa using hold d)
      omega

theorem backfillLoop_main (now : Int) (maxPosts recentTarget : Nat)
    (hmt : recentTarget ≤ maxPosts) (defs : List Post) (sel : List Post)
    (rc : Nat) (hrc : rc = countRecent now sel) (hlen : sel.length ≤ maxPosts)
    (hrecent : ∀ p ∈ defs, isRecent now p = true) :
    (backfillLoop now maxPosts recentTarget defs sel rc).2.1 =
        countRecent now (backfillLoop now maxPosts recentTarget defs sel rc).1 ∧
      (backfillLoop now maxPosts recentTarget defs sel rc).1.length ≤ maxPosts ∧
      min recentTarget (rc + defs.length) ≤
        (backfillLoop now maxPosts recentTarget defs sel rc).2.1 := by
  induction defs generalizing sel rc with
  | nil =>
    simp only [backfillLoop, List.length_nil]
    exact ⟨hrc, hlen, by omega⟩
  | cons p rest ih =>
    simp only [backfillLoop]
    split
    · rename_i hstop
      simp only [List.length_cons]
      exact ⟨hrc, hlen, by omega⟩
    · rename_i hlt
      split
      · rename_i hroom
        dsimp only
        have hp : isRecent now p = true := hrecent p (by simp)
        have h2 := ih (sel ++ [p]) (rc + 1)
          (by rw [countRecent_append, hrc]; simp [countRecent, hp])
          (by simp; omega) (fun q hq => hrecent q (by simp [hq]))
        refine ⟨h2.1, h2.2.1, ?_⟩
        have h3 := h2.2.2
        simp only [List.length_cons]
        omega
      · rename_i hfull
        split
        · rename_i i hidx
          dsimp only
          have hp : isRecent now p = true := hrecent p (by simp)
          have hprops := lastIdxWhere_some _ sel i hidx
          have hset : countRecent now (sel.set i p) =
              countRecent now sel + 1 := by
            refine countRecent_set_succ now sel i p hprops.1 (fun d => ?_) hp
            have h4 := hprops.2 d
            simpa using h4
          have h2 := ih (sel.set i p) (rc + 1)
            (by rw [hset, hrc]) (by rw [List.length_set]; exact hlen)
            (fun q hq => hrecent q (by simp [hq]))
          refine ⟨h2.1, h2.2.1, ?_⟩
          have h3 := h2.2.2
          simp only [List.length_cons]
          omega
        · rename_i hnone
          have hall := lastIdxWhere_none _ sel hnone
          have hallrec : ∀ q ∈ sel, isRecent now q = true := by
            intro q hq
            have h5 := hall q hq
            simpa using h5
          have hcnt : countRecent now sel = sel.length := by
            simp only [countRecent]
            rw [List.filter_length_eq_length.mpr hallrec]
          exfalso
          have h6 : maxPosts ≤ sel.length := by omega
          omega

theorem primaryPass_selected_len_le (now : Int) (maxPosts : Nat)
    (l : List Post) (st : PrimSt) (h : st.selected.length ≤ maxPosts) :
    (primaryPass now maxPosts l st).selected.length ≤ maxPosts := by
  induction l generalizing st with
  | nil => exact h
  | cons p rest ih =>
    simp only [primaryPass]
    split
    · exact h
    · rename_i hroom
      split
      · exact ih ⟨st.selected, st.authorCount, st.zeroCount,
          if isRecent now p = true then st.deferredRecent ++ [p]
          else st.deferredRecent, st.recentCount⟩ h
      · split
        · exact ih ⟨st.selected, st.authorCount, st.zeroCount,
            if isRecent now p = true then st.deferredRecent ++ [p]
            else st.deferredRecent, st.recentCount⟩ h
        · refine ih ⟨st.selected ++ [p], acIncNat st.authorCount (effAuthor p),
            if p.numComments = 0 then st.zeroCount + 1 else st.zeroCount,
            st.deferredRecent,
            if isRecent now p = true then st.recentCount + 1
            else st.recentCount⟩ ?_
          simp only [List.length_append, List.length_cons, List.length_nil]
          omega

theorem countRecent_perm (now : Int) {l₁ l₂ : List Post} (h : l₁.Perm l₂) :
    countRecent now l₁ = countRecent now l₂ := by
  simp only [countRecent]
  exact (h.filter _).length_eq

/-- Claim C4 (amended): whenever the candidate pool passed to the
diversity+recency selection fits within the target limit (so the primary
pass examines every candidate rather than breaking at capacity) and
contains at least `min(20, target_limit)` posts created within the last 3
days, the returned selection contains at least `min(20, target_limit)` such
recent posts.  (A pool larger than the target limit can place recent
candidates after the capacity break, where they are dropped without being
deferred — the counterexample to the claim as frozen.) -/
theorem diversity_recent_floor (rank : Post → ℚ) (now : Int) (posts : List Post)
    (maxPosts : Nat) (hpool : posts.length ≤ maxPosts)
    (hrec : min 20 maxPosts ≤ countRecent now posts) :
    min 20 maxPosts ≤
      countRecent now (applyDiversityAndRecency rank now posts maxPosts) := by
  by_cases hne : posts = []
  · subst hne
    simp only [applyDiversityAndRecency, diversityInternal, if_pos rfl]
    simpa [countRecent] using hrec
  · set st := primaryPass now maxPosts (sortByRankDesc rank posts)
      ⟨[], [], 0, [], 0⟩ with hstdef
    have hd : diversityInternal rank now posts maxPosts =
        (if (decide (st.recentCount < min 20 maxPosts) &&
              !st.deferredRecent.isEmpty) = true then
            backfillLoop now maxPosts (min 20 maxPosts)
              (sortByCreatedDesc st.deferredRecent) st.selected st.recentCount
          else (st.selected, st.recentCount, [])) := by
      unfold diversityInternal
      rw [if_neg hne]
    have hperm := List.perm_insertionSort (fun a b : Post => rank b ≤ rank a) posts
    have hcr_sorted : countRecent now (sortByRankDesc rank posts) =
        countRecent now posts := countRecent_perm now hperm
    have hlen_sorted : (sortByRankDesc rank posts).length = posts.length :=
      hperm.length_eq
    have hcover := primaryPass_cover now maxPosts (sortByRankDesc rank posts)
      ⟨[], [], 0, [], 0⟩ (by simp [hlen_sorted]; omega)
    rw [← hstdef] at hcover
    simp only [List.length_nil, Nat.zero_add, Nat.add_zero] at hcover
    have hrcinv := primaryPass_rc_inv now maxPosts (sortByRankDesc rank posts)
      ⟨[], [], 0, [], 0⟩ (by simp [countRecent])
    rw [← hstdef] at hrcinv
    have hsellen := primaryPass_selected_len_le now maxPosts
      (sortByRankDesc rank posts) ⟨[], [], 0, [], 0⟩ (by simp)
    rw [← hstdef] at hsellen
    have hdefrec := primaryPass_deferred_recent now maxPosts
      (sortByRankDesc rank posts) ⟨[], [], 0, [], 0⟩ (by intro q hq; cases hq)
    rw [← hstdef] at hdefrec
    rw [applyDiversityAndRecency, hd]
    split
    · rename_i hcond
      have hdefsorted := List.perm_insertionSort
        (fun a b : Post => b.createdUtc ≤ a.createdUtc) st.deferredRecent
      have h2 := backfillLoop_main now maxPosts (min 20 maxPosts)
        (Nat.min_le_right 20 maxPosts) (sortByCreatedDesc st.deferredRecent)
        st.selected st.recentCount hrcinv hsellen
        (fun q hq => hdefrec q (hdefsorted.mem_iff.mp hq))
      rw [List.take_of_length_le h2.2.1, ← h2.1]
      have hdl : (sortByCreatedDesc st.deferredRecent).length =
          st.deferredRecent.length := hdefsorted.length_eq
      have h3 := h2.2.2
      omega
    · rename_i hcond
      dsimp only
      rw [List.take_of_length_le hsellen, ← hrcinv]
      by_cases hlt : st.recentCount < min 20 maxPosts
      · have hdefempty : st.deferredRecent = [] := by
          by_contra hdne
          exact hcond (by
            simp only [Bool.and_eq_true, decide_eq_true_eq, Bool.not_eq_true']
            exact ⟨hlt, List.isEmpty_eq_false.mpr hdne⟩)
        have hdl0 : st.deferredRecent.length = 0 := by rw [hdefempty]; rfl
        omega
      · omega

/-- A recent demo post (created within 3 days of the demo clock 1000000). -/
def demoRecentPost : Post :=
  { id := "new1", title := "t", selftext := "", createdUtc := 999999,
    score := 0, numComments := 1, author := "b", subreddit := "s" }

/-- An old demo post. -/
def demoOldPost : Post :=
  { id := "old1", title := "t", selftext := "", createdUtc := 0, score := 0,
    numComments := 1, author := "a", subreddit := "s" }

/-- Witness for the amended C4: a one-post recent pool with target limit 1
keeps its recent post. -/
theorem diversity_recent_floor_witness :
    min 20 1 ≤ countRecent 1000000
      (applyDiversityAndRecency (fun _ => 0) 1000000 [demoRecentPost] 1) :=
  diversity_recent_floor (fun _ => 0) 1000000 [demoRecentPost] 1 (by decide)
    (by decide)

/-- Counterexample to C4 as frozen: a two-post pool (one old, one recent)
with target limit 1 contains `min(20,1) = 1` recent candidate, but the
primary pass fills to capacity with the old post and breaks, dropping the
recent one without deferral, so zero recent posts are returned. -/
theorem diversity_recent_floor_counterexample :
    (min 20 1 ≤ countRecent 1000000 [demoOldPost, demoRecentPost]) ∧
    ¬ (min 20 1 ≤ countRecent 1000000
        (applyDiversityAndRecency (fun _ => 0) 1000000
          [demoOldPost, demoRecentPost] 1)) :=
  ⟨by decide, by decide⟩

theorem dropWhile_idem (p : Char → Bool) (l : List Char) :
    (l.dropWhile p).dropWhile p = l.dropWhile p := by
  induction l with
  | nil => rfl
  | cons c t ih =>
    simp only [List.dropWhile]
    cases h : p c with
    | true =>
      exact ih
    | false =>
      show List.dropWhile p (c :: t) = c :: t
      simp only [List.dropWhile, h]

theorem dropWhile_head_false (p : Char → Bool) (l : List Char) (c : Char)
    (t : List Char) (h : l.dropWhile p = c :: t) : p c = false := by
  induction l with
  | nil => cases h
  | cons x xs ih =>
    simp only [List.dropWhile] at h
    cases hx : p x with
    | true =>
      rw [hx] at h
      exact ih h
    | false =>
      rw [hx] at h
      cases h
      exact hx

theorem getLast?_dropWhile (p : Char → Bool) (l : List Char)
    (h : l.dropWhile p ≠ []) : (l.dropWhile p).getLast? = l.getLast? := by
  induction l with
  | nil => simp [List.dropWhile] at h
  | cons c t ih =>
    simp only [List.dropWhile] at h ⊢
    cases hc : p c with
    | true =>
      rw [hc] at h
      have ht : t ≠ [] := by
        intro h0
        rw [h0] at h
        simp [List.dropWhile] at h
      obtain ⟨x, xs, hx⟩ := List.exists_cons_of_ne_nil ht
      show (List.dropWhile p t).getLast? = (c :: t).getLast?
      rw [ih h, hx, List.getLast?_cons_cons]
    | false =>
      show (c :: t).getLast? = (c :: t).getLast?
      rfl

theorem stripCharsList_idem (p : Char → Bool) (l : List Char) :
    stripCharsList p (stripCharsList p l) = stripCharsList p l := by
  have hB : (stripCharsList p l).reverse.dropWhile p =
      (stripCharsList p l).reverse := by
    simp only [stripCharsList, List.reverse_reverse]
    exact dropWhile_idem p _
  have hA : (stripCharsList p l).dropWhile p = stripCharsList p l := by
    cases hn : stripCharsList p l with
    | nil => simp [List.dropWhile]
    | cons c t =>
      have hc : p c = false := by
        have hhead : (stripCharsList p l).head? = some c := by rw [hn]; rfl
        rw [stripCharsList, List.head?_reverse] at hhead
        by_cases hne : (l.dropWhile p).reverse.dropWhile p = []
        · rw [hne] at hhead
          cases hhead
        · rw [getLast?_dropWhile p _ hne, List.getLast?_reverse] at hhead
          cases hm : l.dropWhile p with
          | nil =>
            rw [hm] at hhead
            cases hhead
          | cons c2 t2 =>
            rw [hm] at hhead
            simp only [List.head?, Option.some.injEq] at hhead
            subst hhead
            exact dropWhile_head_false p l _ t2 hm
      rw [← hn]
      rw [hn]
      simp only [List.dropWhile, hc, if_false]
  conv_lhs => rw [stripCharsList, hA, hB, List.reverse_reverse]

theorem pyStrip_idem (s : String) : pyStrip (pyStrip s) = pyStrip s := by
  simp only [pyStrip]
  rw [stripCharsList_idem]

theorem takeWhile_all (p : Char → Bool) (l : List Char) :
    (l.takeWhile p).all p = true := by
  induction l with
  | nil => rfl
  | cons c t ih =>
    rw [List.takeWhile]
    cases hc : p c with
    | true => simp [List.all_cons, hc, ih]
    | false => rfl

theorem searchCommentsIdCapture_some (l cap : List Char)
    (h : searchCommentsIdCapture l = some cap) :
    cap ≠ [] ∧ cap.all isIdChar = true := by
  induction l with
  | nil => cases h
  | cons c rest ih =>
    rw [searchCommentsIdCapture] at h
    split at h
    · replace h : (if (List.takeWhile isIdChar (List.drop 20 (c :: rest))).isEmpty = true
          then searchCommentsIdCapture rest
          else some (List.takeWhile isIdChar (List.drop 20 (c :: rest)))) = some cap := h
      split at h
      · exact ih h
      · rename_i hne
        cases h
        refine ⟨?_, takeWhile_all isIdChar _⟩
        intro h0
        rw [h0] at hne
        simp at hne
    · exact ih h

theorem evidenceFold_cons (raw : String) (rest acc : List String) :
    evidenceFold (raw :: rest) acc =
      if pyStrip raw = "" then evidenceFold rest acc
      else
        match searchCommentsIdCapture (pyStrip raw).data with
        | some cap =>
          evidenceFold rest
            (if formatPermalink (String.mk cap) ∈ acc then acc
             else acc ++ [formatPermalink (String.mk cap)])
        | none =>
          if bareIdMatch (pyStrip raw) then
            evidenceFold rest
              (if formatPermalink (pyStrip raw) ∈ acc then acc
               else acc ++ [formatPermalink (pyStrip raw)])
          else evidenceFold rest acc := rfl

theorem nodup_append_one (acc : List String) (a : String)
    (hnd : acc.Nodup) (hna : a ∉ acc) : (acc ++ [a]).Nodup := by
  rw [List.nodup_append]
  exact ⟨hnd, List.nodup_singleton a, by simpa [List.disjoint_singleton] using hna⟩

theorem evidenceFold_wf (raws : List String) (acc : List String)
    (hacc : ∀ l ∈ acc, ∃ id, id ≠ "" ∧ id.data.all isIdChar = true ∧ l = formatPermalink id)
    (hnd : acc.Nodup) :
    (∀ l ∈ evidenceFold raws acc,
      ∃ id, id ≠ "" ∧ id.data.all isIdChar = true ∧ l = formatPermalink id)
    ∧ (evidenceFold raws acc).Nodup := by
  induction raws generalizing acc with
  | nil => exact ⟨hacc, hnd⟩
  | cons raw rest ih =>
    rw [evidenceFold_cons]
    by_cases h0 : pyStrip raw = ""
    · rw [if_pos h0]
      exact ih acc hacc hnd
    · rw [if_neg h0]
      cases hc : searchCommentsIdCapture (pyStrip raw).data with
      | some cap =>
        simp only []
        have hcap := searchCommentsIdCapture_some _ _ hc
        have hP : ∃ id, id ≠ "" ∧ id.data.all isIdChar = true ∧
            formatPermalink (String.mk cap) = formatPermalink id := by
          refine ⟨String.mk cap, ?_, hcap.2, rfl⟩
          intro h1
          exact hcap.1 (congrArg String.data h1)
        by_cases hmem : formatPermalink (String.mk cap) ∈ acc
        · rw [if_pos hmem]
          exact ih acc hacc hnd
        · rw [if_neg hmem]
          refine ih _ ?_ (nodup_append_one acc _ hnd hmem)
          intro l hl
          rcases List.mem_append.mp hl with h1 | h1
          · exact hacc l h1
          · rw [List.mem_singleton.mp h1]
            exact hP
      | none =>
        simp only []
        by_cases hb : bareIdMatch (pyStrip raw) = true
        · rw [if_pos hb]
          have hP : ∃ id, id ≠ "" ∧ id.data.all isIdChar = true ∧
              formatPermalink (pyStrip raw) = formatPermalink id := by
            refine ⟨pyStrip raw, h0, ?_, rfl⟩
            have := hb
            rw [bareIdMatch, Bool.and_eq_true] at this
            exact this.2
          by_cases hmem : formatPermalink (pyStrip raw) ∈ acc
          · rw [if_pos hmem]
            exact ih acc hacc hnd
          · rw [if_neg hmem]
            refine ih _ ?_ (nodup_append_one acc _ hnd hmem)
            intro l hl
            rcases List.mem_append.mp hl with h1 | h1
            · exact hacc l h1
            · rw [List.mem_singleton.mp h1]
              exact hP
        · rw [if_neg hb]
          exact ih acc hacc hnd

theorem normalizeEvidenceLinks_singleton (s : String) :
    normalizeEvidenceLinks [s] =
      match searchCommentsIdCapture (pyStrip s).data with
      | some cap => [formatPermalink (String.mk cap)]
      | none =>
        if bareIdMatch (pyStrip s) then [formatPermalink (pyStrip s)] else [] := by
  by_cases h : pyStrip s = ""
  · have hl : normalizeEvidenceLinks [s] = [] := by
      rw [normalizeEvidenceLinks]
      have hf : ([s].map pyStrip).filter (fun x => x ≠ "") = [] := by
        simp [h]
      rw [hf]
      rfl
    have hr : (match searchCommentsIdCapture (pyStrip s).data with
        | some cap => [formatPermalink (String.mk cap)]
        | none =>
          if bareIdMatch (pyStrip s) then [formatPermalink (pyStrip s)] else []) =
        ([] : List String) := by
      rw [h]
      rfl
    exact hl.trans hr.symm
  · rw [normalizeEvidenceLinks]
    have hf : ([s].map pyStrip).filter (fun x => x ≠ "") = [pyStrip s] := by
      simp [h]
    rw [hf]
    rw [evidenceFold_cons, pyStrip_idem, if_neg h]
    cases hc : searchCommentsIdCapture (pyStrip s).data with
    | some cap =>
      simp only []
      rw [if_neg (List.not_mem_nil _)]
      rfl
    | none =>
      simp only []
      by_cases hb : bareIdMatch (pyStrip s) = true
      · rw [if_pos hb, if_pos hb, if_neg (List.not_mem_nil _)]
        rfl
      · rw [if_neg hb, if_neg hb]
        rfl

/-- C6: `_normalize_evidence_links` canonicalizes evidence: the example
`"reddit.com/comments/abc123/extra"` maps to exactly
`"https://www.reddit.com/comments/abc123/"`; a single entry is kept iff it
contains `reddit.com/comments/<id>` (canonicalized from the captured id) or
is a bare id of length ≥ 5 (reconstructed into the canonical form), and is
dropped otherwise rather than included verbatim; and for every input list
the result has at most 2 links, is deduplicated, and every returned link is
`https://www.reddit.com/comments/<id>/` for some nonempty id of id-chars. -/
theorem evidence_links_canonical :
    normalizeEvidenceLinks ["reddit.com/comments/abc123/extra"] =
      ["https://www.reddit.com/comments/abc123/"]
    ∧ (∀ s : String, normalizeEvidenceLinks [s] =
        match searchCommentsIdCapture (pyStrip s).data with
        | some cap => [formatPermalink (String.mk cap)]
        | none =>
          if bareIdMatch (pyStrip s) then [formatPermalink (pyStrip s)] else [])
    ∧ ∀ vs : List String,
        (normalizeEvidenceLinks vs).length ≤ 2
        ∧ (normalizeEvidenceLinks vs).Nodup
        ∧ ∀ l, l ∈ normalizeEvidenceLinks vs →
            ∃ id, id ≠ "" ∧ id.data.all isIdChar = true ∧ l = formatPermalink id := by
  refine ⟨by decide, normalizeEvidenceLinks_singleton, ?_⟩
  intro vs
  have hwf := evidenceFold_wf ((vs.map pyStrip).filter (fun x => x ≠ "")) []
    (by intro l hl; cases hl) List.nodup_nil
  refine ⟨List.length_take_le 2 _, ?_, ?_⟩
  · exact hwf.2.sublist (List.take_sublist 2 _)
  · intro l hl
    exact hwf.1 l ((List.take_sublist 2 _).subset hl)

theorem evidence_links_canonical_witness :
    "https://www.reddit.com/comments/abc123/" ∈ normalizeEvidenceLinks ["xyz", "abc123"]
    ∧ ∃ id, id ≠ "" ∧ id.data.all isIdChar = true ∧
        "https://www.reddit.com/comments/abc123/" = formatPermalink id :=
  ⟨by decide,
   (evidence_links_canonical.2.2 ["xyz", "abc123"]).2.2 _ (by decide)⟩

theorem charListLe_total (x y : List Char) :
    charListLe x y = true ∨ charListLe y x = true := by
  induction x generalizing y with
  | nil => left; rfl
  | cons c xs ih =>
    cases y with
    | nil => right; rfl
    | cons d ys =>
      rw [charListLe, charListLe]
      by_cases h : c = d
      · subst h
        rw [if_pos rfl, if_pos rfl]
        exact ih ys
      · rw [if_neg h, if_neg (Ne.symm h)]
        rcases lt_trichotomy c d with hlt | heq | hgt
        · left; exact decide_eq_true hlt
        · exact absurd heq h
        · right; exact decide_eq_true hgt

theorem charListLe_trans (x y z : List Char) (h1 : charListLe x y = true)
    (h2 : charListLe y z = true) : charListLe x z = true := by
  induction x generalizing y z with
  | nil => rfl
  | cons c xs ih =>
    cases y with
    | nil => simp [charListLe] at h1
    | cons d ys =>
      cases z with
      | nil => simp [charListLe] at h2
      | cons e zs =>
        rw [charListLe] at h1 h2 ⊢
        by_cases hcd : c = d
        · subst hcd
          rw [if_pos rfl] at h1
          by_cases hde : c = e
          · subst hde
            rw [if_pos rfl] at h2 ⊢
            exact ih ys zs h1 h2
          · rw [if_neg hde] at h2 ⊢
            exact h2
        · rw [if_neg hcd] at h1
          have hlt1 : c < d := of_decide_eq_true h1
          by_cases hde : d = e
          · subst hde
            rw [if_neg (ne_of_lt hlt1)]
            exact decide_eq_true hlt1
          · rw [if_neg hde] at h2
            have hlt2 : d < e := of_decide_eq_true h2
            have hlt : c < e := lt_trans hlt1 hlt2
            rw [if_neg (ne_of_lt hlt)]
            exact decide_eq_true hlt

theorem charListLe_antisymm (x y : List Char) (h1 : charListLe x y = true)
    (h2 : charListLe y x = true) : x = y := by
  induction x generalizing y with
  | nil =>
    cases y with
    | nil => rfl
    | cons d ys => simp [charListLe] at h2
  | cons c xs ih =>
    cases y with
    | nil => simp [charListLe] at h1
    | cons d ys =>
      rw [charListLe] at h1 h2
      by_cases hcd : c = d
      · subst hcd
        rw [if_pos rfl] at h1 h2
        rw [ih ys h1 h2]
      · rw [if_neg hcd] at h1
        rw [if_neg (Ne.symm hcd)] at h2
        exact absurd (lt_trans (of_decide_eq_true h1) (of_decide_eq_true h2))
          (lt_irrefl c)

instance : IsTotal String fun a b => charListLe a.data b.data = true :=
  ⟨fun a b => charListLe_total a.data b.data⟩

instance : IsTrans String fun a b => charListLe a.data b.data = true :=
  ⟨fun a b c => charListLe_trans a.data b.data c.data⟩

instance : IsAntisymm String fun a b => charListLe a.data b.data = true :=
  ⟨fun _ _ h1 h2 => String.ext (charListLe_antisymm _ _ h1 h2)⟩

/-- The canonical multiset of a subreddit list under the equivalences the
spec names (order, letter case, `r/`-prefix and URL decoration): each entry
is normalized and lowercased, and entries that normalize to `""` drop out. -/
def canonSubSeq (l : List String) : List String :=
  (l.map (fun s => strToLower (normalizeSubreddit s))).filter (fun x => x ≠ "")

/-- `_normalize_subreddit_list` without the `max_items` break: ordered
dedup (by lowercased name) of the normalized entries. -/
def dedupAux : List String → List String → List String
  | [], _ => []
  | raw :: rest, seen =>
    let e := normalizeSubreddit raw
    if e = "" then dedupAux rest seen
    else if strToLower e ∈ seen then dedupAux rest seen
    else e :: dedupAux rest (strToLower e :: seen)

theorem normListAux_cons (maxItems : Nat) (raw : String) (rest seen : List String)
    (count : Nat) :
    normListAux maxItems (raw :: rest) seen count =
      if normalizeSubreddit raw = "" then normListAux maxItems rest seen count
      else if strToLower (normalizeSubreddit raw) ∈ seen then
        normListAux maxItems rest seen count
      else if maxItems ≤ count + 1 then [normalizeSubreddit raw]
      else normalizeSubreddit raw ::
        normListAux maxItems rest (strToLower (normalizeSubreddit raw) :: seen)
          (count + 1) := rfl

theorem dedupAux_cons (raw : String) (rest seen : List String) :
    dedupAux (raw :: rest) seen =
      if normalizeSubreddit raw = "" then dedupAux rest seen
      else if strToLower (normalizeSubreddit raw) ∈ seen then dedupAux rest seen
      else normalizeSubreddit raw ::
        dedupAux rest (strToLower (normalizeSubreddit raw) :: seen) := rfl

theorem normListAux_eq_dedupAux (maxItems : Nat) (raws seen : List String)
    (count : Nat) (h : count + raws.length ≤ maxItems) :
    normListAux maxItems raws seen count = dedupAux raws seen := by
  induction raws generalizing seen count with
  | nil => rfl
  | cons raw rest ih =>
    rw [normListAux_cons, dedupAux_cons]
    simp only [List.length_cons] at h
    by_cases h0 : normalizeSubreddit raw = ""
    · rw [if_pos h0, if_pos h0]
      exact ih seen count (by omega)
    · rw [if_neg h0, if_neg h0]
      by_cases hs : strToLower (normalizeSubreddit raw) ∈ seen
      · rw [if_pos hs, if_pos hs]
        exact ih seen count (by omega)
      · rw [if_neg hs, if_neg hs]
        by_cases hm : maxItems ≤ count + 1
        · rw [if_pos hm]
          have hr : rest = [] := by
            cases rest with
            | nil => rfl
            | cons a t => simp [List.length_cons] at h; omega
          rw [hr]
          rfl
        · rw [if_neg hm]
          rw [ih _ (count + 1) (by omega)]

theorem strToLower_eq_empty_iff (s : String) : strToLower s = "" ↔ s = "" := by
  constructor
  · intro h
    have hd : s.data.map Char.toLower = [] := congrArg String.data h
    cases s with
    | mk d =>
      cases d with
      | nil => rfl
      | cons c t => simp at hd
  · intro h
    rw [h]
    rfl

theorem canonSubSeq_cons (raw : String) (rest : List String) :
    canonSubSeq (raw :: rest) =
      if strToLower (normalizeSubreddit raw) ≠ "" then
        strToLower (normalizeSubreddit raw) :: canonSubSeq rest
      else canonSubSeq rest := by
  rw [canonSubSeq, List.map_cons, List.filter_cons, canonSubSeq]
  by_cases h : strToLower (normalizeSubreddit raw) ≠ ""
  · rw [if_pos h, if_pos (decide_eq_true h)]
  · rw [if_neg h, if_neg]
    simp at h
    simp [h]

theorem dedupAux_map_lower_mem (raws : List String) (seen : List String)
    (x : String) :
    (x ∈ (dedupAux raws seen).map strToLower) ↔
      (x ∈ canonSubSeq raws ∧ x ∉ seen) := by
  induction raws generalizing seen with
  | nil => simp [dedupAux, canonSubSeq]
  | cons raw rest ih =>
    rw [dedupAux_cons, canonSubSeq_cons]
    by_cases h0 : normalizeSubreddit raw = ""
    · have hl : strToLower (normalizeSubreddit raw) = "" :=
        (strToLower_eq_empty_iff _).mpr h0
      rw [if_pos h0, if_neg (by simp [hl])]
      exact ih seen
    · have hl : strToLower (normalizeSubreddit raw) ≠ "" := by
        intro hc
        exact h0 ((strToLower_eq_empty_iff _).mp hc)
      rw [if_neg h0, if_pos hl]
      by_cases hs : strToLower (normalizeSubreddit raw) ∈ seen
      · rw [if_pos hs]
        rw [ih seen]
        constructor
        · intro hx
          exact ⟨List.mem_cons_of_mem _ hx.1, hx.2⟩
        · intro hx
          rcases List.mem_cons.mp hx.1 with heq | hmem
          · exact absurd (heq ▸ hx.2) (fun hn => hn hs)
          · exact ⟨hmem, hx.2⟩
      · rw [if_neg hs, List.map_cons]
        rw [List.mem_cons, ih (strToLower (normalizeSubreddit raw) :: seen)]
        constructor
        · intro hx
          rcases hx with heq | ⟨hmem, hns⟩
          · refine ⟨?_, ?_⟩
            · rw [heq]
              exact List.mem_cons_self _ _
            · rw [heq]
              exact hs
          · exact ⟨List.mem_cons_of_mem _ hmem,
              fun hc => hns (List.mem_cons_of_mem _ hc)⟩
        · intro hx
          by_cases hxe : x = strToLower (normalizeSubreddit raw)
          · exact Or.inl hxe
          · rcases List.mem_cons.mp hx.1 with heq | hmem
            · exact absurd heq hxe
            · refine Or.inr ⟨hmem, ?_⟩
              intro hc
              rcases List.mem_cons.mp hc with heq2 | hmem2
              · exact hxe heq2
              · exact hx.2 hmem2

theorem dedupAux_map_lower_nodup (raws seen : List String) :
    ((dedupAux raws seen).map strToLower).Nodup := by
  induction raws generalizing seen with
  | nil => exact List.nodup_nil
  | cons raw rest ih =>
    rw [dedupAux_cons]
    by_cases h0 : normalizeSubreddit raw = ""
    · rw [if_pos h0]
      exact ih seen
    · rw [if_neg h0]
      by_cases hs : strToLower (normalizeSubreddit raw) ∈ seen
      · rw [if_pos hs]
        exact ih seen
      · rw [if_neg hs, List.map_cons, List.nodup_cons]
        refine ⟨?_, ih _⟩
        intro hc
        have := (dedupAux_map_lower_mem rest _ _).mp hc
        exact this.2 (List.mem_cons_self _ _)

/-- C7 (amended): for subreddit lists within the API cap of
`MAX_MULTI_SUBREDDITS = 5` entries, the multi-scan cache key is invariant
under reordering, letter case, and `r/`-prefix/URL decoration of the
subreddits, and under case/whitespace/tokenization variance of the
game name and keyword strings.  (For longer lists the claim fails:
`_normalize_subreddit_list` truncates to 5 in input order, so reordering
changes which subreddits survive — see the counterexample.) -/
theorem multi_scan_cache_key_equality (l1 l2 : List String)
    (g1 g2 k1 k2 : String) (b : Bool)
    (h1 : l1.length ≤ MAX_MULTI_SUBREDDITS)
    (h2 : l2.length ≤ MAX_MULTI_SUBREDDITS)
    (hperm : (canonSubSeq l1).Perm (canonSubSeq l2))
    (hg : tokenizeText g1 = tokenizeText g2)
    (hk : tokenizeText k1 = tokenizeText k2) :
    buildMultiScanCacheKey (normalizeSubredditList l1 MAX_MULTI_SUBREDDITS) g1 k1 b =
      buildMultiScanCacheKey (normalizeSubredditList l2 MAX_MULTI_SUBREDDITS) g2 k2 b := by
  have hL1 : normalizeSubredditList l1 MAX_MULTI_SUBREDDITS = dedupAux l1 [] :=
    normListAux_eq_dedupAux _ _ _ 0 (by simpa using h1)
  have hL2 : normalizeSubredditList l2 MAX_MULTI_SUBREDDITS = dedupAux l2 [] :=
    normListAux_eq_dedupAux _ _ _ 0 (by simpa using h2)
  have hmem : ∀ x, x ∈ (dedupAux l1 []).map strToLower ↔
      x ∈ (dedupAux l2 []).map strToLower := by
    intro x
    rw [dedupAux_map_lower_mem, dedupAux_map_lower_mem]
    simp only [List.not_mem_nil, not_false_iff, and_true]
    exact hperm.mem_iff
  have hpl : ((dedupAux l1 []).map strToLower).Perm
      ((dedupAux l2 []).map strToLower) :=
    (List.perm_ext_iff_of_nodup (dedupAux_map_lower_nodup _ _)
      (dedupAux_map_lower_nodup _ _)).mpr hmem
  have hsort : List.insertionSort (fun a b => charListLe a.data b.data = true)
        ((dedupAux l1 []).map strToLower) =
      List.insertionSort (fun a b => charListLe a.data b.data = true)
        ((dedupAux l2 []).map strToLower) :=
    List.eq_of_perm_of_sorted
      (((List.perm_insertionSort _ _).trans hpl).trans
        (List.perm_insertionSort _ _).symm)
      (List.sorted_insertionSort _ _) (List.sorted_insertionSort _ _)
  rw [buildMultiScanCacheKey, buildMultiScanCacheKey, hL1, hL2, hsort,
    normalizeGameLookupKey, normalizeGameLookupKey, hg, hk]

/-- C7 witness: the claim's own example — subreddits `["A","B"]` and
`["b","a"]` (case and order variance) yield the same cache key. -/
theorem multi_scan_cache_key_equality_witness :
    buildMultiScanCacheKey (normalizeSubredditList ["A", "B"] MAX_MULTI_SUBREDDITS)
        "Game" "kw" true =
      buildMultiScanCacheKey (normalizeSubredditList ["b", "a"] MAX_MULTI_SUBREDDITS)
        "game" "kw" true :=
  multi_scan_cache_key_equality ["A", "B"] ["b", "a"] "Game" "game" "kw" "kw" true
    (by decide) (by decide) (by decide) (by decide) (by decide)

/-- C7 counterexample: six pairwise-distinct subreddits listed in opposite
orders (equal up to element order, with no case or decoration variance and
identical game/keyword strings) produce different multi-scan cache keys,
because `_normalize_subreddit_list` truncates to `MAX_MULTI_SUBREDDITS = 5`
entries in input order before the key is built. -/
theorem multi_scan_cache_key_counterexample :
    (["a", "b", "c", "d", "e", "f"] : List String).Perm
        ["f", "e", "d", "c", "b", "a"]
    ∧ buildMultiScanCacheKey
        (normalizeSubredditList ["a", "b", "c", "d", "e", "f"]
          MAX_MULTI_SUBREDDITS) "g" "k" true ≠
      buildMultiScanCacheKey
        (normalizeSubredditList ["f", "e", "d", "c", "b", "a"]
          MAX_MULTI_SUBREDDITS) "g" "k" true :=
  ⟨by decide, by decide⟩

/-- Case-insensitive author count in a selected-comment list. -/
def countAuthorCI (a : String) (l : List Comment) : Nat :=
  (l.filter (fun c => strToLower c.author = a)).length

theorem selectLoop_cons (maxCount : Nat) (c : Comment) (rest sel : List Comment)
    (counts : List (String × Nat)) :
    selectLoop maxCount (c :: rest) sel counts =
      if maxCount ≤ sel.length then sel
      else if strToLower c.author ≠ "" && 2 ≤ acGetNat counts (strToLower c.author) then
        selectLoop maxCount rest sel counts
      else
        selectLoop maxCount rest (sel ++ [cleanSelected c])
          (if strToLower c.author = "" then counts
           else acIncNat counts (strToLower c.author)) := rfl

theorem countAuthorCI_append_one (a : String) (sel : List Comment) (x : Comment) :
    countAuthorCI a (sel ++ [x]) =
      countAuthorCI a sel + (if strToLower x.author = a then 1 else 0) := by
  rw [countAuthorCI, countAuthorCI, List.filter_append, List.length_append]
  by_cases hx : strToLower x.author = a
  · simp [List.filter, hx]
  · simp [List.filter, hx]

theorem selectLoop_struct (maxCount : Nat) (l : List Comment) :
    ∀ (sel : List Comment) (counts : List (String × Nat)),
    ∃ sub : List Comment, List.Sublist sub l ∧
      selectLoop maxCount l sel counts = sel ++ sub.map cleanSelected := by
  induction l with
  | nil =>
    intro sel counts
    exact ⟨[], List.Sublist.refl [], by simp [selectLoop]⟩
  | cons c rest ih =>
    intro sel counts
    rw [selectLoop_cons]
    by_cases hfull : maxCount ≤ sel.length
    · rw [if_pos hfull]
      exact ⟨[], List.nil_sublist _, by simp⟩
    · rw [if_neg hfull]
      by_cases hskip :
          (strToLower c.author ≠ "" && 2 ≤ acGetNat counts (strToLower c.author)) = true
      · rw [if_pos hskip]
        obtain ⟨sub, hs, he⟩ := ih sel counts
        exact ⟨sub, hs.cons c, he⟩
      · rw [if_neg hskip]
        obtain ⟨sub, hs, he⟩ := ih (sel ++ [cleanSelected c]) _
        refine ⟨c :: sub, hs.cons₂ c, ?_⟩
        rw [he, List.map_cons]
        simp [List.append_assoc]

theorem selectLoop_author_inv (maxCount : Nat) (a : String) (ha : a ≠ "")
    (l : List Comment) :
    ∀ (sel : List Comment) (counts : List (String × Nat)),
    countAuthorCI a sel = acGetNat counts a →
    acGetNat counts a ≤ 2 →
    countAuthorCI a (selectLoop maxCount l sel counts) ≤ 2 := by
  induction l with
  | nil =>
    intro sel counts heq hle
    exact le_trans (le_of_eq heq) hle
  | cons c rest ih =>
    intro sel counts heq hle
    rw [selectLoop_cons]
    by_cases hfull : maxCount ≤ sel.length
    · rw [if_pos hfull]
      exact le_trans (le_of_eq heq) hle
    · rw [if_neg hfull]
      by_cases hskip :
          (strToLower c.author ≠ "" && 2 ≤ acGetNat counts (strToLower c.author)) = true
      · rw [if_pos hskip]
        exact ih sel counts heq hle
      · rw [if_neg hskip]
        by_cases hxa : strToLower c.author = a
        · have hne : ¬ strToLower c.author = "" := by
            rw [hxa]; exact ha
          have hlt : acGetNat counts a < 2 := by
            by_contra hge
            push_neg at hge
            apply hskip
            rw [Bool.and_eq_true]
            refine ⟨decide_eq_true hne, ?_⟩
            rw [hxa]
            exact decide_eq_true hge
          rw [if_neg hne, hxa]
          refine ih _ _ ?_ ?_
          · rw [countAuthorCI_append_one, acGetNat_acIncNat_self, heq]
            have : strToLower (cleanSelected c).author = a := hxa
            rw [if_pos this]
          · rw [acGetNat_acIncNat_self]
            omega
        · have hcnt : countAuthorCI a (sel ++ [cleanSelected c]) = countAuthorCI a sel := by
            rw [countAuthorCI_append_one]
            have : ¬ strToLower (cleanSelected c).author = a := hxa
            rw [if_neg this]
            omega
          by_cases hz : strToLower c.author = ""
          · rw [if_pos hz]
            refine ih _ _ ?_ hle
            rw [hcnt, heq]
          · rw [if_neg hz]
            refine ih _ _ ?_ ?_
            · rw [hcnt, heq,
                acGetNat_acIncNat_ne counts (strToLower c.author) a (Ne.symm hxa)]
            · rw [acGetNat_acIncNat_ne counts (strToLower c.author) a (Ne.symm hxa)]
              exact hle

theorem selectLoop_length_le (maxCount : Nat) (l : List Comment) :
    ∀ (sel : List Comment) (counts : List (String × Nat)),
    sel.length ≤ maxCount →
    (selectLoop maxCount l sel counts).length ≤ maxCount := by
  induction l with
  | nil =>
    intro sel counts h
    exact h
  | cons c rest ih =>
    intro sel counts h
    rw [selectLoop_cons]
    by_cases hfull : maxCount ≤ sel.length
    · rw [if_pos hfull]
      exact h
    · rw [if_neg hfull]
      split
      · exact ih sel counts h
      · refine ih _ _ ?_
        rw [List.length_append]
        simp only [List.length_cons, List.length_nil]
        omega

theorem cleanCommentBody_len_le (s : String) :
    (cleanCommentBody s).length ≤ COMMENT_BODY_TRUNCATE + 3 := by
  have h : cleanCommentBody s =
      (if COMMENT_BODY_TRUNCATE <
          (String.mk (replaceMentionsList (pyStrip s).data)).length then
        strTake (String.mk (replaceMentionsList (pyStrip s).data))
          COMMENT_BODY_TRUNCATE ++ "..."
      else String.mk (replaceMentionsList (pyStrip s).data)) := rfl
  rw [h]
  split
  · rename_i hgt
    rw [String.length_append]
    have h1 : (strTake (String.mk (replaceMentionsList (pyStrip s).data))
        COMMENT_BODY_TRUNCATE).length ≤ COMMENT_BODY_TRUNCATE := by
      have := List.length_take_le COMMENT_BODY_TRUNCATE
        (replaceMentionsList (pyStrip s).data)
      exact this
    have h2 : ("..." : String).length = 3 := rfl
    omega
  · rename_i hle
    push_neg at hle
    omega

theorem fetchCommentsFresh_ok (resp : CommentsResp) (cache : CommentCache)
    (now : Int) (postId : String) (limit : Int) (out : List Comment)
    (cache' : CommentCache)
    (h : fetchCommentsFresh resp cache now postId limit = (.ok out, cache')) :
    ∃ src, out = selectBestComments src (min (max limit 1) 100).toNat := by
  cases resp with
  | notFound =>
    cases h
    exact ⟨[], rfl⟩
  | err e =>
    exact absurd (congrArg Prod.fst h) (by simp [fetchCommentsFresh])
  | ok rows =>
    cases h
    exact ⟨filterRawComments rows, rfl⟩

/-- C9 (amended): `fetch_comments_for_post` always returns (on success, on
cache hit or miss) the result of `_select_best_comments` on a stored
comment set, bounded by `min(max(limit,1),100)`; the selection is the
body-cleaned image of a subsequence of the comments sorted by
`(score desc, ORIGINAL body length desc, created_utc desc)` — so the
ordering keys use the pre-truncation body length, not the returned one;
each NONEMPTY author (case-insensitively) gets at most 2 selected
comments, while empty authors are exempt from the cap; at most `max_count`
comments are returned; `/u/`-mentions become `[user]` and cleaned bodies
never exceed 400 characters plus the 3-character ellipsis. -/
theorem fetch_comments_selection :
    (∀ (resp : CommentsResp) (cache : CommentCache) (now : Int)
        (postId : String) (limit : Int) (out : List Comment)
        (cache' : CommentCache),
        fetchCommentsForPost resp cache now postId limit = (.ok out, cache') →
        ∃ src, out = selectBestComments src (min (max limit 1) 100).toNat)
    ∧ (∀ (comments : List Comment) (maxCount : Nat),
        ∃ sub : List Comment,
          List.Sublist sub (List.insertionSort commentKeyGe comments)
          ∧ sub.Pairwise commentKeyGe
          ∧ selectBestComments comments maxCount = sub.map cleanSelected)
    ∧ (∀ (comments : List Comment) (maxCount : Nat) (a : String), a ≠ "" →
        countAuthorCI a (selectBestComments comments maxCount) ≤ 2)
    ∧ (∀ (comments : List Comment) (maxCount : Nat),
        (selectBestComments comments maxCount).length ≤ maxCount)
    ∧ cleanCommentBody "see u/bob and /u/alice_1." = "see [user] and [user]."
    ∧ (∀ s : String,
        (cleanCommentBody s).length ≤ COMMENT_BODY_TRUNCATE + 3) := by
  refine ⟨?_, ?_, ?_, ?_, by decide, cleanCommentBody_len_le⟩
  · intro resp cache now postId limit out cache' h
    rw [fetchCommentsForPost] at h
    by_cases hp : postId = ""
    · rw [if_pos hp] at h
      cases h
      exact ⟨[], rfl⟩
    · rw [if_neg hp] at h
      cases hc : cacheGet cache postId with
      | some pair =>
        obtain ⟨ts, stored⟩ := pair
        rw [hc] at h
        replace h : (if now - ts < CACHE_TTL then
            (Except.ok (selectBestComments stored (min (max limit 1) 100).toNat),
              cache)
            else fetchCommentsFresh resp cache now postId limit) =
            (Except.ok out, cache') := h
        by_cases hfresh : now - ts < CACHE_TTL
        · rw [if_pos hfresh] at h
          cases h
          exact ⟨stored, rfl⟩
        · rw [if_neg hfresh] at h
          exact fetchCommentsFresh_ok _ _ _ _ _ _ _ h
      | none =>
        rw [hc] at h
        exact fetchCommentsFresh_ok _ _ _ _ _ _ _ h
  · intro comments maxCount
    obtain ⟨sub, hs, he⟩ :=
      selectLoop_struct maxCount (List.insertionSort commentKeyGe comments) [] []
    refine ⟨sub, hs, ?_, ?_⟩
    · exact (List.sorted_insertionSort commentKeyGe comments).sublist hs
    · rw [selectBestComments, he]
      rfl
  · intro comments maxCount a ha
    exact selectLoop_author_inv maxCount a ha _ [] [] rfl (by simp [acGetNat])
  · intro comments maxCount
    exact selectLoop_length_le maxCount _ [] [] (Nat.zero_le _)

/-- C9 witness: on a mirror 404 the call returns a best-comment selection
(of the empty stored set), and a nonempty author is capped at 2. -/
theorem fetch_comments_selection_witness :
    (∃ src, ([] : List Comment) =
      selectBestComments src (min (max (5 : Int) 1) 100).toNat)
    ∧ countAuthorCI "bob"
        (selectBestComments [⟨"c1", "hi", 1, 0, "Bob"⟩] 10) ≤ 2 :=
  ⟨fetch_comments_selection.1 .notFound [] 0 "p" 5 []
      (cacheSet [] "p" (0, [])) (by decide),
   fetch_comments_selection.2.2.1 [⟨"c1", "hi", 1, 0, "Bob"⟩] 10 "bob"
      (by decide)⟩

/-- Demo stored comments: three comments with empty author, equal scores,
and raw body lengths 410, 405 and 2 (the first two clean to the same
403-character truncated body). -/
def demoStoredComments : List Comment :=
  [⟨"c1", String.mk (List.replicate 410 'a'), 5, 1, ""⟩,
   ⟨"c2", String.mk (List.replicate 405 'b'), 5, 2, ""⟩,
   ⟨"c3", "zz", 5, 0, ""⟩]

set_option maxRecDepth 10000 in
/-- C9 counterexample: `_select_best_comments` selects three comments with
the same (empty) case-insensitive author — the per-author cap of 2 only
applies to nonempty authors — and the returned list is NOT ordered by
`(score desc, body length desc, created_utc desc)` on its own fields: the
first two returned comments tie on score and (truncated) body length but
appear with created_utc 1 before created_utc 2. -/
theorem select_best_comments_counterexample :
    (selectBestComments demoStoredComments 10).map
        (fun c => (strToLower c.author, c.score, c.body.length, c.createdUtc)) =
      [("", 5, 403, 1), ("", 5, 403, 2), ("", 5, 2, 0)]
    ∧ ¬ countAuthorCI "" (selectBestComments demoStoredComments 10) ≤ 2 := by
  constructor
  · decide
  · decide

/-- A canonical `https://www.reddit.com/comments/<id>/` link with a
nonempty id (the well-formedness notion of the analysis contract). -/
def WellFormedRedditLink (l : String) : Prop :=
  ∃ id : String, id ≠ "" ∧ l = formatPermalink id

theorem take_ne_nil_of_ne_nil {α : Type} (n : Nat) (l : List α) (hn : n ≠ 0)
    (hl : l ≠ []) : l.take n ≠ [] := by
  cases l with
  | nil => exact absurd rfl hl
  | cons a t =>
    cases n with
    | zero => exact absurd rfl hn
    | succ m =>
      rw [List.take_succ_cons]
      exact List.cons_ne_nil _ _

theorem map_enum_ne_nil {α β : Type} (f : Nat × α → β) (l : List α)
    (hl : l ≠ []) : l.enum.map f ≠ [] := by
  intro h
  have hlen := congrArg List.length h
  rw [List.length_map, List.enum_length, List.length_nil] at hlen
  exact hl (List.length_eq_zero.mp hlen)

theorem normalizeEvidenceLinks_wf (v : List String) (l : String)
    (h : l ∈ normalizeEvidenceLinks v) : WellFormedRedditLink l := by
  have hwf := evidenceFold_wf ((v.map pyStrip).filter (fun x => x ≠ "")) []
    (by intro x hx; cases hx) List.nodup_nil
  obtain ⟨id, hne, _, heq⟩ := hwf.1 l ((List.take_sublist 2 _).subset h)
  exact ⟨id, hne, heq⟩

theorem matchPostRef_some (l cap : List Char) (k : Nat)
    (h : matchPostRef l = some (cap, k)) : cap ≠ [] := by
  rw [matchPostRef.eq_def] at h
  split at h
  · rename_i rest
    replace h : (if (rest.takeWhile isIdChar).isEmpty = true then none
        else match rest.drop (rest.takeWhile isIdChar).length with
          | ']' :: _ => some (rest.takeWhile isIdChar,
              6 + (rest.takeWhile isIdChar).length + 1)
          | _ => none) = some (cap, k) := h
    split at h
    · cases h
    · split at h
      · rename_i hne _ _ _
        cases h
        intro h0
        rw [h0] at hne
        simp at hne
      · cases h
  · cases h

theorem extractPostIdsAux_succ (fuel : Nat) (l : List Char) :
    extractPostIdsAux (fuel + 1) l =
      match matchPostRef l with
      | some (cap, k) => cap :: extractPostIdsAux fuel (l.drop k)
      | none =>
        match l with
        | [] => []
        | _ :: rest => extractPostIdsAux fuel rest := rfl

theorem extractPostIdsAux_ne_nil (fuel : Nat) (l : List Char) (cap : List Char)
    (h : cap ∈ extractPostIdsAux fuel l) : cap ≠ [] := by
  induction fuel generalizing l with
  | zero => cases h
  | succ fuel ih =>
    rw [extractPostIdsAux_succ] at h
    split at h
    · rename_i cap0 k hm
      rcases List.mem_cons.mp h with heq | hmem
      · rw [heq]
        exact matchPostRef_some _ _ _ hm
      · exact ih _ hmem
    · split at h
      · cases h
      · exact ih _ h

theorem extractPostIds_ne_empty (text : String) (pid : String)
    (h : pid ∈ extractPostIds text) : pid ≠ "" := by
  rw [extractPostIds] at h
  obtain ⟨cap, hcap, heq⟩ := List.mem_map.mp h
  have hne := extractPostIdsAux_ne_nil _ _ _ hcap
  intro h0
  rw [← heq] at h0
  exact hne (congrArg String.data h0)

theorem addPermalinksFromIds_wf (pids : List String) :
    ∀ (acc : List String), (∀ x ∈ acc, WellFormedRedditLink x) →
    (∀ pid ∈ pids, pid ≠ "") → ∀ l, l ∈ addPermalinksFromIds pids acc →
    WellFormedRedditLink l := by
  induction pids with
  | nil =>
    intro acc hacc _ l h
    exact hacc l h
  | cons pid rest ih =>
    intro acc hacc hpids l h
    have hacc' : ∀ x ∈ (if formatPermalink pid ∈ acc then acc
        else acc ++ [formatPermalink pid]), WellFormedRedditLink x := by
      intro x hx
      split at hx
      · exact hacc x hx
      · rcases List.mem_append.mp hx with h1 | h1
        · exact hacc x h1
        · rw [List.mem_singleton.mp h1]
          exact ⟨pid, hpids pid (List.mem_cons_self _ _), rfl⟩
    replace h : l ∈ (if 2 ≤ (if formatPermalink pid ∈ acc then acc
        else acc ++ [formatPermalink pid]).length then
          (if formatPermalink pid ∈ acc then acc
            else acc ++ [formatPermalink pid])
          else addPermalinksFromIds rest
            (if formatPermalink pid ∈ acc then acc
              else acc ++ [formatPermalink pid])) := h
    set A := if formatPermalink pid ∈ acc then acc
      else acc ++ [formatPermalink pid] with hA
    split at h
    · exact hacc' l h
    · exact ih A hacc' (fun q hq => hpids q (List.mem_cons_of_mem _ hq)) l h

theorem fallbackLinksOf_wf (rank : Post → ℚ) (posts : List Post) (l : String)
    (h : l ∈ fallbackLinksOf rank posts) : WellFormedRedditLink l := by
  rw [fallbackLinksOf] at h
  obtain ⟨p, _, hp⟩ := List.mem_filterMap.mp h
  by_cases hid : pyStrip p.id = ""
  · rw [if_pos hid] at hp
    cases hp
  · rw [if_neg hid] at hp
    cases hp
    exact ⟨pyStrip p.id, hid, rfl⟩

theorem fallbackLinksOf_ne_nil (rank : Post → ℚ) (posts : List Post)
    (h : ∃ p ∈ posts, pyStrip p.id ≠ "") : fallbackLinksOf rank posts ≠ [] := by
  obtain ⟨p, hmem, hid⟩ := h
  have hmem' : p ∈ sortByRankDesc rank posts :=
    (List.perm_insertionSort (fun a b : Post => rank b ≤ rank a) posts).symm.subset
      hmem
  have : formatPermalink (pyStrip p.id) ∈ fallbackLinksOf rank posts := by
    rw [fallbackLinksOf]
    refine List.mem_filterMap.mpr ⟨p, hmem', ?_⟩
    rw [if_neg hid]
  intro h0
  rw [h0] at this
  cases this

theorem evidence_step_spec (ev2 FL : List String) (hfb : FL ≠ [])
    (hev2 : ∀ l ∈ ev2, WellFormedRedditLink l)
    (hFL : ∀ l ∈ FL, WellFormedRedditLink l) (i : Nat) :
    ((if ev2 = [] && !FL.isEmpty then ev2 ++ [FL.getD (i % FL.length) ""]
      else ev2).take 2) ≠ [] ∧
    ∀ l ∈ (if ev2 = [] && !FL.isEmpty then ev2 ++ [FL.getD (i % FL.length) ""]
      else ev2).take 2, WellFormedRedditLink l := by
  have hlen : 0 < FL.length := List.length_pos.mpr hfb
  have hmod : i % FL.length < FL.length := Nat.mod_lt i hlen
  by_cases h2 : ev2 = []
  · have hcond : (ev2 = [] && !FL.isEmpty) = true := by
      rw [h2]
      simp [List.isEmpty_eq_false.mpr hfb]
    rw [if_pos hcond, h2, List.nil_append]
    have hget : FL.getD (i % FL.length) "" ∈ FL := by
      rw [List.getD_eq_getElem FL "" hmod]
      exact List.getElem_mem hmod
    refine ⟨by simp, ?_⟩
    intro l hl
    rw [List.take_of_length_le (by simp)] at hl
    rw [List.mem_singleton.mp hl]
    exact hFL _ hget
  · have hcond : ¬ (ev2 = [] && !FL.isEmpty) = true := by
      simp [h2]
    rw [if_neg hcond]
    refine ⟨take_ne_nil_of_ne_nil 2 ev2 (by omega) h2, ?_⟩
    intro l hl
    exact hev2 l ((List.take_sublist 2 ev2).subset hl)

theorem ensureEvidenceForItems_eq (rank : Post → ℚ) (items : List InsightItem)
    (posts : List Post) (h : items ≠ []) :
    ensureEvidenceForItems rank items posts =
      items.enum.map fun ii =>
        { text := pyStrip ii.2.text
          evidence :=
            (if (if normalizeEvidenceLinks ii.2.evidence = [] then
                  addPermalinksFromIds (extractPostIds (pyStrip ii.2.text)) []
                else normalizeEvidenceLinks ii.2.evidence) = [] &&
                !(fallbackLinksOf rank posts).isEmpty then
              (if normalizeEvidenceLinks ii.2.evidence = [] then
                  addPermalinksFromIds (extractPostIds (pyStrip ii.2.text)) []
                else normalizeEvidenceLinks ii.2.evidence) ++
                [(fallbackLinksOf rank posts).getD
                  (ii.1 % (fallbackLinksOf rank posts).length) ""]
            else
              (if normalizeEvidenceLinks ii.2.evidence = [] then
                  addPermalinksFromIds (extractPostIds (pyStrip ii.2.text)) []
                else normalizeEvidenceLinks ii.2.evidence)).take 2 } := by
  rw [ensureEvidenceForItems, if_neg h]

theorem ensureEvidenceForItems_ne_nil (rank : Post → ℚ)
    (items : List InsightItem) (posts : List Post) (h : items ≠ []) :
    ensureEvidenceForItems rank items posts ≠ [] := by
  rw [ensureEvidenceForItems_eq rank items posts h]
  exact map_enum_ne_nil _ _ h

theorem ensureEvidenceForItems_evidence (rank : Post → ℚ)
    (items : List InsightItem) (posts : List Post)
    (hfb : fallbackLinksOf rank posts ≠ []) :
    ∀ item ∈ ensureEvidenceForItems rank items posts,
      item.evidence ≠ [] ∧ ∀ l ∈ item.evidence, WellFormedRedditLink l := by
  intro item hmem
  by_cases h : items = []
  · rw [h] at hmem
    rw [ensureEvidenceForItems, if_pos rfl] at hmem
    cases hmem
  · rw [ensureEvidenceForItems_eq rank items posts h] at hmem
    obtain ⟨ii, hii, heq⟩ := List.mem_map.mp hmem
    have hev2 : ∀ l ∈ (if normalizeEvidenceLinks ii.2.evidence = [] then
        addPermalinksFromIds (extractPostIds (pyStrip ii.2.text)) []
      else normalizeEvidenceLinks ii.2.evidence), WellFormedRedditLink l := by
      intro l hl
      split at hl
      · exact addPermalinksFromIds_wf _ [] (by intro x hx; cases hx)
          (fun pid hp => extractPostIds_ne_empty _ pid hp) l hl
      · exact normalizeEvidenceLinks_wf _ l hl
    rw [← heq]
    exact evidence_step_spec
      (if normalizeEvidenceLinks ii.2.evidence = [] then
        addPermalinksFromIds (extractPostIds (pyStrip ii.2.text)) []
      else normalizeEvidenceLinks ii.2.evidence)
      (fallbackLinksOf rank posts) hfb hev2
      (fun l hl => fallbackLinksOf_wf rank posts l hl) ii.1

theorem buildSchemaFallback_empty (rank engW : Post → ℚ) :
    buildSchemaFallback rank engW [] = emptyDataFallback := rfl

theorem buildSchemaFallback_shape (rank engW : Post → ℚ) (posts : List Post)
    (h : posts ≠ []) :
    ((buildSchemaFallback rank engW posts).sentimentLabel = "Positive" ∨
     (buildSchemaFallback rank engW posts).sentimentLabel = "Mixed" ∨
     (buildSchemaFallback rank engW posts).sentimentLabel = "Negative") ∧
    (buildSchemaFallback rank engW posts).themes ≠ [] ∧
    (buildSchemaFallback rank engW posts).painPoints ≠ [] ∧
    (buildSchemaFallback rank engW posts).wins ≠ [] := by
  have hsorted : sortByRankDesc rank posts ≠ [] := by
    intro h0
    have hperm := List.perm_insertionSort (fun a b : Post => rank b ≤ rank a) posts
    rw [sortByRankDesc] at h0
    rw [h0] at hperm
    exact h hperm.nil_eq.symm
  have htop : (sortByRankDesc rank posts).take 15 ≠ [] :=
    take_ne_nil_of_ne_nil 15 _ (by omega) hsorted
  simp only [buildSchemaFallback]
  rw [if_neg htop]
  refine ⟨?_, ?_, ?_, ?_⟩
  · split
    · right; right; rfl
    · split
      · left; rfl
      · right; left; rfl
  · refine map_enum_ne_nil _ _ ?_
    refine take_ne_nil_of_ne_nil 6 _ (by omega) ?_
    split
    · exact List.cons_ne_nil _ _
    · rename_i hph
      exact hph
  · intro h0
    have := congrArg List.length h0
    simp [List.length_map, List.length_range] at this
  · intro h0
    have := congrArg List.length h0
    simp [List.length_map, List.length_range] at this

theorem analyzeNoKey_eq (rank engW : Post → ℚ) (posts : List Post) :
    analyzePostsWithAiNoKey rank engW posts =
      { sentimentLabel := (buildSchemaFallback rank engW posts).sentimentLabel
        sentimentSummary := (buildSchemaFallback rank engW posts).sentimentSummary
        themes := (buildSchemaFallback rank engW posts).themes.take 10
        painPoints := (ensureEvidenceForItems rank
          ((buildSchemaFallback rank engW posts).painPoints.take 5) posts).take 5
        wins := (ensureEvidenceForItems rank
          ((buildSchemaFallback rank engW posts).wins.take 5) posts).take 5 } := rfl

/-- C1: with no OPENAI_API_KEY configured, `analyze_posts_with_ai` is the
deterministic schema fallback: for every rank/engagement weighting and
every post list it returns (without raising) a result whose sentiment
label is one of Positive/Mixed/Negative, whose theme list is nonempty,
whose pain-point and win lists are nonempty, and — whenever at least one
source post has a nonempty (stripped) id — the pain points and wins each
contain an item whose evidence list is nonempty and consists solely of
well-formed `https://www.reddit.com/comments/<id>/` links. -/
theorem analyze_no_key_schema_valid (rank engW : Post → ℚ) (posts : List Post) :
    ((analyzePostsWithAiNoKey rank engW posts).sentimentLabel = "Positive" ∨
     (analyzePostsWithAiNoKey rank engW posts).sentimentLabel = "Mixed" ∨
     (analyzePostsWithAiNoKey rank engW posts).sentimentLabel = "Negative") ∧
    (analyzePostsWithAiNoKey rank engW posts).themes ≠ [] ∧
    (analyzePostsWithAiNoKey rank engW posts).painPoints ≠ [] ∧
    (analyzePostsWithAiNoKey rank engW posts).wins ≠ [] ∧
    ((∃ p ∈ posts, pyStrip p.id ≠ "") →
      (∃ item ∈ (analyzePostsWithAiNoKey rank engW posts).painPoints,
        item.evidence ≠ [] ∧ ∀ l ∈ item.evidence, WellFormedRedditLink l) ∧
      (∃ item ∈ (analyzePostsWithAiNoKey rank engW posts).wins,
        item.evidence ≠ [] ∧ ∀ l ∈ item.evidence, WellFormedRedditLink l)) := by
  rw [analyzeNoKey_eq]
  have hfb_shape : ((buildSchemaFallback rank engW posts).sentimentLabel = "Positive" ∨
      (buildSchemaFallback rank engW posts).sentimentLabel = "Mixed" ∨
      (buildSchemaFallback rank engW posts).sentimentLabel = "Negative") ∧
      (buildSchemaFallback rank engW posts).themes ≠ [] ∧
      (buildSchemaFallback rank engW posts).painPoints ≠ [] ∧
      (buildSchemaFallback rank engW posts).wins ≠ [] := by
    by_cases h : posts = []
    · subst h
      rw [buildSchemaFallback_empty]
      refine ⟨Or.inr (Or.inl rfl), ?_, ?_, ?_⟩
      · exact List.cons_ne_nil _ _
      · exact List.cons_ne_nil _ _
      · exact List.cons_ne_nil _ _
    · exact buildSchemaFallback_shape rank engW posts h
  obtain ⟨hlabel, hthemes, hpain, hwins⟩ := hfb_shape
  refine ⟨hlabel, ?_, ?_, ?_, ?_⟩
  · exact take_ne_nil_of_ne_nil 10 _ (by omega) hthemes
  · exact take_ne_nil_of_ne_nil 5 _ (by omega)
      (ensureEvidenceForItems_ne_nil rank _ posts
        (take_ne_nil_of_ne_nil 5 _ (by omega) hpain))
  · exact take_ne_nil_of_ne_nil 5 _ (by omega)
      (ensureEvidenceForItems_ne_nil rank _ posts
        (take_ne_nil_of_ne_nil 5 _ (by omega) hwins))
  · intro hex
    have hfb : fallbackLinksOf rank posts ≠ [] := fallbackLinksOf_ne_nil rank posts hex
    constructor
    · have hne : (ensureEvidenceForItems rank
          ((buildSchemaFallback rank engW posts).painPoints.take 5) posts).take 5 ≠ [] :=
        take_ne_nil_of_ne_nil 5 _ (by omega)
          (ensureEvidenceForItems_ne_nil rank _ posts
            (take_ne_nil_of_ne_nil 5 _ (by omega) hpain))
      obtain ⟨item, hitem⟩ := List.exists_mem_of_ne_nil _ hne
      refine ⟨item, hitem, ?_⟩
      exact ensureEvidenceForItems_evidence rank _ posts hfb item
        ((List.take_sublist 5 _).subset hitem)
    · have hne : (ensureEvidenceForItems rank
          ((buildSchemaFallback rank engW posts).wins.take 5) posts).take 5 ≠ [] :=
        take_ne_nil_of_ne_nil 5 _ (by omega)
          (ensureEvidenceForItems_ne_nil rank _ posts
            (take_ne_nil_of_ne_nil 5 _ (by omega) hwins))
      obtain ⟨item, hitem⟩ := List.exists_mem_of_ne_nil _ hne
      refine ⟨item, hitem, ?_⟩
      exact ensureEvidenceForItems_evidence rank _ posts hfb item
        ((List.take_sublist 5 _).subset hitem)

/-- A demo post with a nonempty id, used to instantiate C1's evidence
clause. -/
def demoIdPost : Post :=
  { id := "abc", title := "t", selftext := "", createdUtc := 0, score := 1,
    numComments := 1, author := "u", subreddit := "s" }

/-- C1 witness: for one concrete post with id `"abc"` the no-key analysis
yields a pain-point item with nonempty, well-formed evidence. -/
theorem analyze_no_key_schema_valid_witness :
    (∃ p ∈ [demoIdPost], pyStrip p.id ≠ "") ∧
    (∃ item ∈ (analyzePostsWithAiNoKey (fun _ => 0) (fun _ => 0)
        [demoIdPost]).painPoints,
      item.evidence ≠ [] ∧ ∀ l ∈ item.evidence, WellFormedRedditLink l) :=
  ⟨⟨demoIdPost, List.mem_singleton.mpr rfl, by decide⟩,
   ((analyze_no_key_schema_valid (fun _ => 0) (fun _ => 0) [demoIdPost]).2.2.2.2
     ⟨demoIdPost, List.mem_singleton.mpr rfl, by decide⟩).1⟩
